import Mathlib

/-!
Verification development for the dogfood repository's core pipeline:
repository feature aggregation (src/src/lib/skills.js, buildSkillsProfile),
job normalization and ingestion (the job-management half of src/src/lib/skills.js),
skill-to-job matching and categorization, and the git-history summary of
src/src/lib/analyzer.js.

Modelling conventions:
* JavaScript objects used as string-keyed maps are modelled as association
  lists `List (String × V)` in insertion order: assigning a fresh key appends,
  assigning an existing key updates in place (`aupsert`), exactly the
  observable key-order semantics of JS objects.
* JS numbers that the code only ever uses as integers (counts, scores,
  millisecond timestamps) are `Nat`/`Int`.  `Math.round(x)` for nonnegative
  rationals n/d is `(2*n + d) / (2*d)` in natural division.
* The framework weights in the source are the tenths-valued literals
  1.0 .. 1.5; they are carried as integer tenths (`weight10`, 10 .. 15) and
  ratio comparisons are done by exact cross-multiplication, which agrees with
  the source's rational arithmetic (see `calculateProficiency`).
* Strings are handled through their character lists so that every definition
  evaluates inside the kernel; `lowerStr`/`trimStr`/`strIncludes` model
  `toLowerCase`/`trim`/`String.prototype.includes` for the ASCII data the
  code handles.
* `Array.prototype.sort` (stable in modern JS) with comparator
  `(a, b) => b.k - a.k` is modelled by the stable insertion sort
  `stableSortBy` with the corresponding total preorder.
-/

set_option maxRecDepth 20000

/-! ## Association lists with JS object key semantics -/

/-- Lookup in an insertion-ordered association list (JS property read). -/
def alookup {V : Type} : List (String × V) → String → Option V
  | [], _ => none
  | (k, v) :: rest, q => if k = q then some v else alookup rest q

/-- JS property write `o[k] = f(o[k])`: update in place if the key exists,
append otherwise. -/
def aupsert {V : Type} (k : String) (f : Option V → V) : List (String × V) → List (String × V)
  | [] => [(k, f none)]
  | (k', v) :: rest => if k' = k then (k', f (some v)) :: rest else (k', v) :: aupsert k f rest

/-! ## Character-list string helpers (kernel-evaluable models of JS string ops) -/

/-- Model of `String.prototype.toLowerCase` for ASCII data. -/
def lowerStr (s : String) : String := String.mk (s.data.map Char.toLower)

/-- Model of `String.prototype.trim` (strip leading and trailing whitespace). -/
def trimStr (s : String) : String :=
  String.mk (((s.data.dropWhile Char.isWhitespace).reverse.dropWhile Char.isWhitespace).reverse)

/-- Whether `needle` occurs at the start of `hay`. -/
def chPre : List Char → List Char → Bool
  | [], _ => true
  | _ :: _, [] => false
  | a :: as, b :: bs => a = b && chPre as bs

/-- Whether `needle` occurs anywhere in `hay` (scan of all suffixes). -/
def chIncl (needle : List Char) : List Char → Bool
  | [] => needle.isEmpty
  | c :: rest => chPre needle (c :: rest) || chIncl needle rest

/-- Model of `hay.includes(needle)` of JS strings. -/
def strIncludes (hay needle : String) : Bool := chIncl needle.data hay.data

/-- Model of `str.split(',')` on character lists. -/
def splitComma : List Char → List (List Char)
  | [] => [[]]
  | c :: rest =>
    match splitComma rest with
    | [] => [[c]]
    | g :: gs => if c = ',' then [] :: g :: gs else (c :: g) :: gs

/-- Stable insertion of `x` after every element `y` with `le y x` true. -/
def insLe {α : Type} (le : α → α → Bool) (x : α) : List α → List α
  | [] => [x]
  | y :: ys => if le y x then y :: insLe le x ys else x :: y :: ys

/-- Stable sort: the output of JS `Array.prototype.sort` for a comparator whose
induced `le` is a total preorder. -/
def stableSortBy {α : Type} (le : α → α → Bool) (l : List α) : List α :=
  l.foldl (fun acc x => insLe le x acc) []

/-- Model of `Math.round(num / den)` for a nonnegative rational, `den > 0`. -/
def jsRoundNat (num den : Nat) : Nat := (2 * num + den) / (2 * den)

/-- Model of `Math.round(num / den)` on integers (round half toward positive infinity,
i.e. `Math.floor(x + 0.5)`). -/
def jsRoundInt (num den : Int) : Int := Int.fdiv (2 * num + den) (2 * den)

/-! ## skills.js: static tables -/

/-- One entry of the `FRAMEWORK_CATEGORIES` table: category, display name and
weight in tenths (the source literals are 1.0 .. 1.5). -/
structure FrameworkInfo where
  category : String
  name : String
  weight10 : Nat
deriving DecidableEq

/-- Model of `FRAMEWORK_CATEGORIES` from src/src/lib/skills.js. -/
def FRAMEWORK_CATEGORIES : List (String × FrameworkInfo) := [
  ("react", { category := "frontend", name := "React", weight10 := 15 }),
  ("vue", { category := "frontend", name := "Vue.js", weight10 := 13 }),
  ("angular", { category := "frontend", name := "Angular", weight10 := 13 }),
  ("svelte", { category := "frontend", name := "Svelte", weight10 := 12 }),
  ("nextjs", { category := "frontend", name := "Next.js", weight10 := 14 }),
  ("nuxt", { category := "frontend", name := "Nuxt.js", weight10 := 13 }),
  ("gatsby", { category := "frontend", name := "Gatsby", weight10 := 12 }),
  ("nodejs-backend", { category := "backend", name := "Node.js Backend", weight10 := 14 }),
  ("nestjs", { category := "backend", name := "NestJS", weight10 := 13 }),
  ("express", { category := "backend", name := "Express.js", weight10 := 12 }),
  ("fastify", { category := "backend", name := "Fastify", weight10 := 12 }),
  ("mongodb", { category := "database", name := "MongoDB", weight10 := 12 }),
  ("orm", { category := "database", name := "ORM (Prisma/TypeORM)", weight10 := 13 }),
  ("docker", { category := "devops", name := "Docker", weight10 := 14 }),
  ("kubernetes", { category := "devops", name := "Kubernetes", weight10 := 15 }),
  ("ci-cd", { category := "devops", name := "CI/CD", weight10 := 13 }),
  ("infrastructure-as-code", { category := "devops", name := "Infrastructure as Code", weight10 := 14 }),
  ("testing", { category := "quality", name := "Testing", weight10 := 12 }),
  ("e2e-testing", { category := "quality", name := "E2E Testing", weight10 := 13 }),
  ("game-development", { category := "specialty", name := "Game Development", weight10 := 15 }),
  ("3d-graphics", { category := "specialty", name := "3D Graphics", weight10 := 14 }),
  ("data-visualization", { category := "specialty", name := "Data Visualization", weight10 := 13 }),
  ("desktop-app", { category := "specialty", name := "Desktop Apps (Electron)", weight10 := 13 }),
  ("mobile-app", { category := "specialty", name := "Mobile Development", weight10 := 14 }),
  ("graphql", { category := "api", name := "GraphQL", weight10 := 13 }),
  ("component-architecture", { category := "architecture", name := "Component Architecture", weight10 := 11 }),
  ("api-development", { category := "architecture", name := "API Development", weight10 := 13 }),
  ("mvc", { category := "architecture", name := "MVC Pattern", weight10 := 11 }),
  ("state-management", { category := "architecture", name := "State Management", weight10 := 12 }),
  ("react-hooks", { category := "architecture", name := "React Hooks", weight10 := 11 }),
  ("tailwind", { category := "styling", name := "Tailwind CSS", weight10 := 12 }),
  ("css-in-js", { category := "styling", name := "CSS-in-JS", weight10 := 11 }),
  ("typescript", { category := "tooling", name := "TypeScript", weight10 := 14 }),
  ("bundling", { category := "tooling", name := "Build Tools", weight10 := 11 }),
  ("linting", { category := "tooling", name := "Code Quality", weight10 := 10 })]

/-- One entry of the `LANGUAGE_SKILLS` table. -/
structure LangSkillInfo where
  level : String
  aliases : List String := []
  parent : Option String := none
deriving DecidableEq

/-- Model of `LANGUAGE_SKILLS` from src/src/lib/skills.js. -/
def LANGUAGE_SKILLS : List (String × LangSkillInfo) := [
  ("JavaScript", { level := "language", aliases := ["js", "node", "nodejs"] }),
  ("JavaScript (React)", { level := "language", parent := some "JavaScript" }),
  ("TypeScript", { level := "language", aliases := ["ts"] }),
  ("TypeScript (React)", { level := "language", parent := some "TypeScript" }),
  ("Python", { level := "language", aliases := ["py", "python3"] }),
  ("Go", { level := "language", aliases := ["golang"] }),
  ("Rust", { level := "language", aliases := ["rs"] }),
  ("Java", { level := "language" }),
  ("C#", { level := "language", aliases := ["csharp", "dotnet"] }),
  ("C", { level := "language" }),
  ("C++", { level := "language", aliases := ["cpp"] }),
  ("Ruby", { level := "language", aliases := ["rb"] }),
  ("PHP", { level := "language" }),
  ("Swift", { level := "language" }),
  ("Kotlin", { level := "language" }),
  ("Scala", { level := "language" }),
  ("Elixir", { level := "language" }),
  ("Haskell", { level := "language" }),
  ("Lua", { level := "language" }),
  ("SQL", { level := "language" }),
  ("Shell", { level := "language", aliases := ["bash", "sh"] }),
  ("HTML", { level := "markup" }),
  ("CSS", { level := "styling" }),
  ("SCSS", { level := "styling", parent := some "CSS" }),
  ("Sass", { level := "styling", parent := some "CSS" }),
  ("Vue", { level := "framework" }),
  ("Svelte", { level := "framework" })]

/-! ## skills.js: input data model (RepoFeatureRecord as consumed by the builder) -/

/-- One element of a repo's `languages` array as read by `buildSkillsProfile`
(`lang.name` and `lang.count`). -/
structure LangStat where
  name : String
  count : Nat
deriving DecidableEq

/-- The fields of `repo.git` that `buildSkillsProfile` reads; commit instants
as millisecond timestamps.  The sentinel produced on git failure has no
`firstCommit`/`lastCommit`, hence the `Option`s. -/
structure GitSummary where
  firstCommit : Option Int := none
  lastCommit : Option Int := none
  commitCount : Nat := 0
deriving DecidableEq

/-- An analyzed repository record as consumed by `buildSkillsProfile`. -/
structure AnalyzedRepo where
  name : String := ""
  excluded : Bool := false
  git : Option GitSummary := none
  languages : List LangStat := []
  patterns : List String := []
  dependencies : List (String × List String) := []
deriving DecidableEq

/-! ## skills.js: buildSkillsProfile -/

/-- Accumulated `languageCounts[name] = \x7b count, repos \x7d`. -/
structure LangCount where
  count : Nat
  repos : Nat
deriving DecidableEq

/-- Accumulated `frameworkCounts[pattern] = \x7b ...frameworkInfo, repos \x7d`. -/
structure FrameworkCount where
  category : String
  name : String
  weight10 : Nat
  repos : Nat
deriving DecidableEq

/-- Accumulated `toolCounts[dep] = \x7b name, ecosystem, repos \x7d`. -/
structure ToolCount where
  name : String
  ecosystem : String
  repos : Nat
deriving DecidableEq

/-- The aggregation state threaded through the `for (const repo of ...)` loop
of `buildSkillsProfile`. -/
structure AggState where
  languageCounts : List (String × LangCount) := []
  frameworkCounts : List (String × FrameworkCount) := []
  patternCounts : List (String × Nat) := []
  toolCounts : List (String × ToolCount) := []
  totalCommits : Nat := 0
  earliestCommit : Int := 0
  latestCommit : Int := 0
deriving DecidableEq

/-- Model of `languageCounts[lang.name].count += lang.count; languageCounts[lang.name].repos++`
with on-demand initialization. -/
def bumpLanguage (acc : List (String × LangCount)) (lang : LangStat) : List (String × LangCount) :=
  aupsert lang.name (fun o => match o with
    | none => { count := lang.count, repos := 1 }
    | some v => { count := v.count + lang.count, repos := v.repos + 1 }) acc

/-- Model of `patternCounts[pattern] = (patternCounts[pattern] || 0) + 1`. -/
def bumpPattern (acc : List (String × Nat)) (p : String) : List (String × Nat) :=
  aupsert p (fun o => o.getD 0 + 1) acc

/-- The framework half of the pattern loop: only patterns with a
`FRAMEWORK_CATEGORIES` entry get a `frameworkCounts` slot. -/
def bumpFramework (acc : List (String × FrameworkCount)) (p : String) :
    List (String × FrameworkCount) :=
  match alookup FRAMEWORK_CATEGORIES p with
  | none => acc
  | some info => aupsert p (fun o => match o with
      | none => { category := info.category, name := info.name,
                  weight10 := info.weight10, repos := 1 }
      | some v => { v with repos := v.repos + 1 }) acc

/-- Model of `toolCounts[dep]` initialization and increment. -/
def bumpTool (acc : List (String × ToolCount)) (ecosystem dep : String) :
    List (String × ToolCount) :=
  aupsert dep (fun o => match o with
    | none => { name := dep, ecosystem := ecosystem, repos := 1 }
    | some v => { v with repos := v.repos + 1 }) acc

/-- The body of the aggregation loop for one repo (skips excluded records). -/
def aggRepoStep (st : AggState) (repo : AnalyzedRepo) : AggState :=
  if repo.excluded then st else
  { languageCounts := repo.languages.foldl bumpLanguage st.languageCounts,
    frameworkCounts := repo.patterns.foldl bumpFramework st.frameworkCounts,
    patternCounts := repo.patterns.foldl bumpPattern st.patternCounts,
    toolCounts := repo.dependencies.foldl
      (fun acc ed => ed.2.foldl (fun a dep => bumpTool a ed.1 dep) acc) st.toolCounts,
    totalCommits := st.totalCommits + (match repo.git with
      | some g => g.commitCount
      | none => 0),
    earliestCommit := match repo.git.bind (fun g => g.firstCommit) with
      | some t => if t < st.earliestCommit then t else st.earliestCommit
      | none => st.earliestCommit,
    latestCommit := match repo.git.bind (fun g => g.lastCommit) with
      | some t => if t > st.latestCommit then t else st.latestCommit
      | none => st.latestCommit }

/-- The whole aggregation loop.  `earliestCommit` starts at `new Date()` (the
current instant `now`), `latestCommit` at `new Date(0)`. -/
def aggregateRepos (repos : List AnalyzedRepo) (now : Int) : AggState :=
  repos.foldl aggRepoStep { earliestCommit := now, latestCommit := 0 }

/-- Model of `calculateProficiency` from src/src/lib/skills.js: the source computes
`ratio = (repoCount / totalRepos) * weight` and compares it with
0.5 / 0.3 / 0.15 using `>=`.  With `weight = weight10 / 10` the three
comparisons are, by exact cross-multiplication (`totalRepos >= 1`),
the integer conditions below; the rational reading is proved as
`calculateProficiency_eq_ratio_tiers`.  The default weight 1 is `weight10 = 10`. -/
def calculateProficiency (repoCount totalRepos : Nat) (weight10 : Nat := 10) : String :=
  if repoCount * weight10 ≥ 5 * totalRepos then "expert"
  else if repoCount * weight10 ≥ 3 * totalRepos then "advanced"
  else if 2 * (repoCount * weight10) ≥ 3 * totalRepos then "intermediate"
  else "familiar"

/-- The `patternToDomain` table inside `deriveDomains`. -/
def patternToDomain : List (String × String) := [
  ("game-development", "Game Development"),
  ("3d-graphics", "3D Graphics & Visualization"),
  ("data-visualization", "Data Visualization"),
  ("mobile-app", "Mobile Development"),
  ("desktop-app", "Desktop Applications"),
  ("api-development", "API & Backend Services"),
  ("kubernetes", "Cloud Infrastructure"),
  ("docker", "DevOps"),
  ("ci-cd", "DevOps"),
  ("infrastructure-as-code", "Cloud Infrastructure"),
  ("testing", "Quality Assurance"),
  ("e2e-testing", "Quality Assurance")]

/-- The `frameworkToDomain` table inside `deriveDomains`. -/
def frameworkToDomain : List (String × String) := [
  ("frontend", "Frontend Development"),
  ("backend", "Backend Development"),
  ("database", "Database & Data"),
  ("devops", "DevOps"),
  ("specialty", "Specialized Development")]

/-- Model of `Set.prototype.add` on an insertion-ordered duplicate-free list. -/
def insertUniq (l : List String) (x : String) : List String :=
  if x ∈ l then l else l ++ [x]

/-- One `for` loop of `deriveDomains`: add the mapped domain of every key that
has a table entry. -/
def addMappedDomains (table : List (String × String)) (acc : List String)
    (keys : List String) : List String :=
  keys.foldl (fun a k => match alookup table k with
    | some d => insertUniq a d
    | none => a) acc

/-- An entry of `profile.languages`: counts plus the spread `...langInfo`. -/
structure LanguageEntry where
  fileCount : Nat
  repoCount : Nat
  proficiency : String
  level : String
  aliases : List String := []
  parent : Option String := none
deriving DecidableEq

/-- An entry of `profile.frameworks`. -/
structure FrameworkEntry where
  key : String
  category : String
  repoCount : Nat
  proficiency : String
deriving DecidableEq

/-- An element of `summary.topLanguages` (`\x7b name, ...data \x7d`). -/
structure TopLanguage where
  name : String
  fileCount : Nat
  repoCount : Nat
  proficiency : String
  level : String
  aliases : List String := []
  parent : Option String := none
deriving DecidableEq

/-- An element of `summary.topFrameworks`. -/
structure TopFramework where
  name : String
  key : String
  category : String
  repoCount : Nat
  proficiency : String
deriving DecidableEq

/-- An entry of `profile.tools`. -/
structure ToolEntry where
  ecosystem : String
  repoCount : Nat
deriving DecidableEq

/-- Model of `profile.summary`. -/
structure ProfileSummary where
  totalRepos : Nat
  totalCommits : Nat
  yearsActive : Int
  topLanguages : List TopLanguage
  topFrameworks : List TopFramework
deriving DecidableEq

/-- The skills profile produced by `buildSkillsProfile`. -/
structure SkillsProfile where
  languages : List (String × LanguageEntry) := []
  frameworks : List (String × FrameworkEntry) := []
  tools : List (String × ToolEntry) := []
  patterns : List String := []
  domains : List String := []
  summary : ProfileSummary :=
    { totalRepos := 0, totalCommits := 0, yearsActive := 0,
      topLanguages := [], topFrameworks := [] }
deriving DecidableEq

/-- Builds one `profile.languages` entry from a `languageCounts` slot. -/
def mkLanguageEntry (name : String) (data : LangCount) (totalRepos : Nat) : LanguageEntry :=
  let langInfo := (alookup LANGUAGE_SKILLS name).getD { level := "language" }
  { fileCount := data.count, repoCount := data.repos,
    proficiency := calculateProficiency data.repos totalRepos,
    level := langInfo.level, aliases := langInfo.aliases, parent := langInfo.parent }

/-- Builds one `profile.frameworks` entry from a `frameworkCounts` slot. -/
def mkFrameworkEntry (key : String) (data : FrameworkCount) (totalRepos : Nat) : FrameworkEntry :=
  { key := key, category := data.category, repoCount := data.repos,
    proficiency := calculateProficiency data.repos totalRepos data.weight10 }

/-- Model of `deriveDomains` from src/src/lib/skills.js. -/
def deriveDomains (patterns : List String) (frameworks : List (String × FrameworkEntry)) :
    List String :=
  addMappedDomains frameworkToDomain
    (addMappedDomains patternToDomain [] patterns)
    (frameworks.map (fun fw => fw.2.category))

/-- Model of `buildSkillsProfile` from src/src/lib/skills.js.  `now` is the current
instant (`new Date()`), used only to seed `earliestCommit`.  Note that
`summary.totalRepos` is `analyzedRepos.length` (excluded records included)
while the aggregation loop skips excluded records. -/
def buildSkillsProfile (analyzedRepos : List AnalyzedRepo) (now : Int) : SkillsProfile :=
  let totalRepos := analyzedRepos.length
  let agg := aggregateRepos analyzedRepos now
  let yearsActive : Int := max 1 (jsRoundInt (agg.latestCommit - agg.earliestCommit) 31536000000)
  let languages := agg.languageCounts.map
    (fun nd => (nd.1, mkLanguageEntry nd.1 nd.2 totalRepos))
  let topLanguages :=
    ((stableSortBy (fun a b => decide (b.2.repoCount ≤ a.2.repoCount))
        (languages.filter (fun nd => nd.2.level == "language"))).take 5).map
      (fun nd => { name := nd.1, fileCount := nd.2.fileCount, repoCount := nd.2.repoCount,
                   proficiency := nd.2.proficiency, level := nd.2.level,
                   aliases := nd.2.aliases, parent := nd.2.parent : TopLanguage })
  let frameworks := agg.frameworkCounts.map
    (fun kd => (kd.2.name, mkFrameworkEntry kd.1 kd.2 totalRepos))
  let topFrameworks :=
    ((stableSortBy (fun a b => decide (b.2.repoCount ≤ a.2.repoCount)) frameworks).take 5).map
      (fun nd => { name := nd.1, key := nd.2.key, category := nd.2.category,
                   repoCount := nd.2.repoCount, proficiency := nd.2.proficiency : TopFramework })
  let significantTools :=
    (stableSortBy (fun a b => decide (b.2.repos ≤ a.2.repos))
      (agg.toolCounts.filter (fun nd => decide (nd.2.repos ≥ 2)))).take 20
  let tools := significantTools.map
    (fun nd => (nd.1, { ecosystem := nd.2.ecosystem, repoCount := nd.2.repos : ToolEntry }))
  let uniquePatterns := agg.patternCounts.map (fun p => p.1)
  { languages := languages,
    frameworks := frameworks,
    tools := tools,
    patterns := uniquePatterns,
    domains := deriveDomains uniquePatterns frameworks,
    summary := { totalRepos := totalRepos, totalCommits := agg.totalCommits,
                 yearsActive := yearsActive, topLanguages := topLanguages,
                 topFrameworks := topFrameworks } }

/-! ## skills.js: matching -/

/-- A normalized job record (the shape produced by `normalizeJob`, which is
also the shape `matchSkillsToJob`/`matchJobsToProfile` consume). -/
structure JobRecord where
  id : String := ""
  title : String := ""
  company : String := ""
  url : Option String := none
  description : String := ""
  skills : List String := []
  location : String := ""
  salary : Option String := none
  type : String := ""
  remote : Option Bool := none
  source : String := ""
  datePosted : String := ""
  dateAdded : String := ""
  status : String := ""
deriving DecidableEq

/-- An element of the `matched`/`bonus` lists of `matchSkillsToJob`. -/
structure SkillMatch where
  name : String
  type : String
  proficiency : String
deriving DecidableEq

/-- The return value of `matchSkillsToJob`. -/
structure MatchOutcome where
  score : Nat
  matched : List SkillMatch
  missing : List String
  bonus : List SkillMatch
deriving DecidableEq

/-- Model of `matchSkillsToJob` from src/src/lib/skills.js: languages match by exact
token membership (name or aliases) in the job's skills, else by substring in
the description (bonus); frameworks match by either; score is
`Math.round(matched.length / (jobSkills.length || 1) * 100)`. -/
def matchSkillsToJob (profile : SkillsProfile) (job : JobRecord) : MatchOutcome :=
  let jobSkills := job.skills.map lowerStr
  let jobDescription := lowerStr job.description
  let langPass := profile.languages.foldl
    (fun (mb : List SkillMatch × List SkillMatch) nd =>
      let nameLower := lowerStr nd.1
      let aliases := ((alookup LANGUAGE_SKILLS nd.1).map (fun i => i.aliases)).getD []
      let allNames := nameLower :: aliases
      let inSkills := allNames.any (fun n => jobSkills.contains n)
      let inDesc := allNames.any (fun n => strIncludes jobDescription n)
      if inSkills then
        (mb.1 ++ [{ name := nd.1, type := "language", proficiency := nd.2.proficiency }], mb.2)
      else if inDesc then
        (mb.1, mb.2 ++ [{ name := nd.1, type := "language", proficiency := nd.2.proficiency }])
      else mb) ([], [])
  let matched := profile.frameworks.foldl
    (fun acc nd =>
      let nameLower := lowerStr nd.1
      if jobSkills.contains nameLower || strIncludes jobDescription nameLower then
        acc ++ [{ name := nd.1, type := "framework", proficiency := nd.2.proficiency }]
      else acc) langPass.1
  let bonus := langPass.2
  let missing := jobSkills.filter (fun skill => !(matched.any (fun m => lowerStr m.name == skill)))
  let requiredCount := if jobSkills.length = 0 then 1 else jobSkills.length
  let score := jsRoundNat (matched.length * 100) requiredCount
  { score := score, matched := matched, missing := missing, bonus := bonus }

/-- The optional `preferences` argument of `matchJobsToProfile`. -/
structure Preferences where
  wantSkills : List String := []
  avoidSkills : List String := []
  locations : List String := []
deriving DecidableEq

/-- One MatchResult. -/
structure MatchResult where
  job : JobRecord
  score : Int
  baseScore : Nat
  matchedSkills : List SkillMatch
  missingSkills : List String
  bonusSkills : List SkillMatch
  locationMatch : Bool
  wantMatch : Bool
  hasAvoid : Bool
deriving DecidableEq

/-- Model of `wantScore`: 10 per matched entry whose name contains a want token
(case-insensitive substring), 0 when no want preferences. -/
def wantScoreOf (prefs : Preferences) (matched : List SkillMatch) : Nat :=
  if prefs.wantSkills.length > 0 then
    10 * (matched.filter (fun m => prefs.wantSkills.any (fun w =>
      strIncludes (lowerStr m.name) (lowerStr w)))).length
  else 0

/-- Model of `avoidPenalty`: 15 per job skill token containing an avoid token. -/
def avoidPenaltyOf (prefs : Preferences) (job : JobRecord) : Nat :=
  if prefs.avoidSkills.length > 0 then
    15 * (job.skills.filter (fun s => prefs.avoidSkills.any (fun a =>
      strIncludes (lowerStr s) (lowerStr a)))).length
  else 0

/-- The location filter of `matchJobsToProfile`. -/
def locationMatchOf (prefs : Preferences) (job : JobRecord) : Bool :=
  if prefs.locations.length > 0 then
    let jobLoc := lowerStr job.location
    let isRemote := (match job.remote with | some b => b | none => false)
      || strIncludes jobLoc "remote"
    prefs.locations.any (fun loc =>
      if lowerStr loc == "remote" then isRemote else strIncludes jobLoc (lowerStr loc))
  else true

/-- The loop body of `matchJobsToProfile` for one job. -/
def matchJobRecord (profile : SkillsProfile) (prefs : Preferences) (job : JobRecord) :
    MatchResult :=
  let m := matchSkillsToJob profile job
  let wantScore := wantScoreOf prefs m.matched
  let avoidPenalty := avoidPenaltyOf prefs job
  let adjustedScore : Int := max 0 (min 100 ((m.score : Int) + wantScore - avoidPenalty))
  { job := job, score := adjustedScore, baseScore := m.score,
    matchedSkills := m.matched, missingSkills := m.missing, bonusSkills := m.bonus,
    locationMatch := locationMatchOf prefs job,
    wantMatch := wantScore > 0, hasAvoid := avoidPenalty > 0 }

/-- Model of `matchJobsToProfile` from src/src/lib/skills.js: score every job, then
stable-sort by final score descending. -/
def matchJobsToProfile (jobs : List JobRecord) (profile : SkillsProfile)
    (prefs : Preferences) : List MatchResult :=
  stableSortBy (fun a b => decide (b.score ≤ a.score)) (jobs.map (matchJobRecord profile prefs))

/-- The four buckets of `categorizeMatches`. -/
structure CategorizedMatches where
  want : List MatchResult
  qualified : List MatchResult
  stretch : List MatchResult
  filtered : List MatchResult
deriving DecidableEq

/-- Model of `categorizeMatches` from src/src/lib/skills.js. -/
def categorizeMatches (matchList : List MatchResult) : CategorizedMatches :=
  { want := matchList.filter (fun m =>
      m.wantMatch && decide (m.score ≥ 50) && m.locationMatch && !m.hasAvoid),
    qualified := matchList.filter (fun m =>
      decide (m.score ≥ 50) && m.locationMatch && !m.wantMatch && !m.hasAvoid),
    stretch := matchList.filter (fun m =>
      decide (m.score ≥ 25) && decide (m.score < 50) && m.locationMatch),
    filtered := matchList.filter (fun m => !m.locationMatch || m.hasAvoid) }

/-! ## skills.js: job ingestion -/

/-- A raw job's `skills` field: a JSON array or a plain string. -/
inductive SkillsField where
  | arr (items : List String)
  | str (text : String)
deriving DecidableEq

/-- A raw, untrusted job entry from an import payload.  `none` models an
absent (or `null`) field.  The declaration order fixes the key order of the
record's serialized form (JSON.stringify preserves the payload's own key
order; the model represents raw records with this fixed order). -/
structure RawJob where
  title : Option String := none
  company : Option String := none
  url : Option String := none
  description : Option String := none
  skills : Option SkillsField := none
  location : Option String := none
  salary : Option String := none
  type : Option String := none
  remote : Option Bool := none
  source : Option String := none
  datePosted : Option String := none
  dateAdded : Option String := none
  status : Option String := none
  id : Option String := none
deriving DecidableEq

/-- JSON string literal (for payload strings without escapes). -/
def jsonStr (s : String) : String := "\"" ++ s ++ "\""

/-- Renders one present field as `"key":value`, nothing when absent
(JSON.stringify skips `undefined`). -/
def jsonField (k : String) (v : Option String) : List String :=
  match v with
  | some s => [jsonStr k ++ ":" ++ s]
  | none => []

/-- Model of `JSON.stringify(job)` for a raw job record, keys in the record's order. -/
def jsonStringifyRawJob (j : RawJob) : String :=
  let fields :=
    jsonField "title" (j.title.map jsonStr) ++
    jsonField "company" (j.company.map jsonStr) ++
    jsonField "url" (j.url.map jsonStr) ++
    jsonField "description" (j.description.map jsonStr) ++
    jsonField "skills" (j.skills.map (fun sf => match sf with
      | SkillsField.arr items => "[" ++ String.intercalate "," (items.map jsonStr) ++ "]"
      | SkillsField.str t => jsonStr t)) ++
    jsonField "location" (j.location.map jsonStr) ++
    jsonField "salary" (j.salary.map jsonStr) ++
    jsonField "type" (j.type.map jsonStr) ++
    jsonField "remote" (j.remote.map (fun b => if b then "true" else "false")) ++
    jsonField "source" (j.source.map jsonStr) ++
    jsonField "datePosted" (j.datePosted.map jsonStr) ++
    jsonField "dateAdded" (j.dateAdded.map jsonStr) ++
    jsonField "status" (j.status.map jsonStr) ++
    jsonField "id" (j.id.map jsonStr)
  "\x7b" ++ String.intercalate "," fields ++ "\x7d"

/-- Model of `(hash << 5) - hash` wraps at 32 bits; `hash = hash & hash` coerces the
double back to a signed 32-bit integer. -/
def toInt32 (n : Int) : Int :=
  let m := n % 4294967296
  if m < 2147483648 then m else m - 4294967296

/-- Model of `simpleHash` from src/src/lib/skills.js: the classic 31x+c rolling hash in
signed 32-bit arithmetic, then `Math.abs`. -/
def simpleHash (s : String) : Nat :=
  (s.data.foldl (fun h c => toInt32 (toInt32 (h * 32) - h + c.toNat)) 0).natAbs

/-- ASCII lowercase letters and digits survive the slug; everything else is
`[^a-z0-9]` after `toLowerCase`. -/
def isSlugKeep (c : Char) : Bool := ('a' ≤ c && c ≤ 'z') || ('0' ≤ c && c ≤ '9')

/-- Model of `.replace(/[^a-z0-9]+/g, '-')`: every maximal run of non-kept characters
becomes a single dash (the flag tracks being inside such a run). -/
def slugReplace : Bool → List Char → List Char
  | _, [] => []
  | inRun, c :: rest =>
    if isSlugKeep c then c :: slugReplace false rest
    else if inRun then slugReplace true rest
    else '-' :: slugReplace true rest

/-- Model of `generateJobId` from src/src/lib/skills.js.  A JS template literal renders
an absent field as the text `undefined`. -/
def generateJobId (job : RawJob) : String :=
  let base := String.mk ((slugReplace false
    (lowerStr ((job.company.getD "undefined") ++ "-" ++ (job.title.getD "undefined"))).data).take 40)
  let hash := String.mk ((Nat.toDigits 16 (simpleHash (jsonStringifyRawJob job))).take 6)
  base ++ "-" ++ hash

/-- JS truthiness of an optional string (absent and `""` are falsy). -/
def truthyOptStr : Option String → Bool
  | some s => s ≠ ""
  | none => false

/-- JS truthiness of the `skills` field (an array is an object, always truthy;
an empty string is falsy). -/
def skillsTruthy : Option SkillsField → Bool
  | some (SkillsField.arr _) => true
  | some (SkillsField.str t) => t ≠ ""
  | none => false

/-- Model of `Array.isArray(job.skills)`. -/
def skillsIsArray : Option SkillsField → Bool
  | some (SkillsField.arr _) => true
  | _ => false

/-- The return shape of `validateJob`. -/
structure ValidationResult where
  valid : Bool
  errors : List String
deriving DecidableEq

/-- Model of `validateJob` from src/src/lib/skills.js: required `title`/`company`
(truthy), and a truthy `skills` value must be an array. -/
def validateJob (job : RawJob) : ValidationResult :=
  let errors :=
    (if !truthyOptStr job.title then ["Missing required field: title"] else []) ++
    (if !truthyOptStr job.company then ["Missing required field: company"] else []) ++
    (if skillsTruthy job.skills && !skillsIsArray job.skills then
      ["Skills must be an array"] else [])
  { valid := errors.isEmpty, errors := errors }

/-- Model of `normalizeSkills` from src/src/lib/skills.js: split a string on commas and
trim the pieces; then drop falsy entries and lowercase+trim each token. -/
def normalizeSkills (skills : SkillsField) : List String :=
  let items := match skills with
    | SkillsField.str t => (splitComma t.data).map (fun cs => trimStr (String.mk cs))
    | SkillsField.arr l => l
  (items.filter (fun s => s ≠ "")).map (fun s => trimStr (lowerStr s))

/-- Model of `x || fallback` for optional strings (absent and `""` are falsy). -/
def orDefault (o : Option String) (fallback : String) : String :=
  match o with
  | some s => if s = "" then fallback else s
  | none => fallback

/-- Model of `x || null` for optional strings (empty strings collapse to null). -/
def orNull (o : Option String) : Option String :=
  match o with
  | some s => if s = "" then none else some s
  | none => none

/-- Model of `normalizeJob` from src/src/lib/skills.js.  `dateToday` is
`new Date().toISOString().split('T')[0]`, `isoNow` the full ISO instant. -/
def normalizeJob (job : RawJob) (dateToday isoNow : String) : JobRecord :=
  { id := match job.id with
      | some i => if i = "" then generateJobId job else i
      | none => generateJobId job,
    title := (let t := trimStr (job.title.getD "")
      if t = "" then "Unknown Position" else t),
    company := (let c := trimStr (job.company.getD "")
      if c = "" then "Unknown Company" else c),
    url := orNull job.url,
    description := job.description.getD "",
    skills := normalizeSkills (match job.skills with
      | some (SkillsField.arr l) => SkillsField.arr l
      | some (SkillsField.str t) => if t = "" then SkillsField.arr [] else SkillsField.str t
      | none => SkillsField.arr []),
    location := orDefault job.location "Not specified",
    salary := orNull job.salary,
    type := orDefault job.type "full-time",
    remote := (match job.remote with
      | some b => some b
      | none => match job.location with
        | some loc => if strIncludes (lowerStr loc) "remote" then some true else none
        | none => none),
    source := orDefault job.source "manual",
    datePosted := orDefault job.datePosted dateToday,
    dateAdded := orDefault job.dateAdded isoNow,
    status := orDefault job.status "new" }

/-- One `results.errors` entry of the ingest loop. -/
structure IngestErrorEntry where
  job : RawJob
  errors : List String
deriving DecidableEq

/-- The state of the ingest loop: the running report, the job collection being
extended in place, and the `existingIds` set (insertion-ordered). -/
structure IngestState where
  added : Nat := 0
  skipped : Nat := 0
  errors : List IngestErrorEntry := []
  jobs : List JobRecord := []
  ids : List String := []
deriving DecidableEq

/-- The body of the `for (const rawJob of rawJobs)` loop in
`ingestJobsFromFile`. -/
def ingestStep (dateToday isoNow : String) (st : IngestState) (rawJob : RawJob) : IngestState :=
  let validation := validateJob rawJob
  if !validation.valid then
    { st with errors := st.errors ++ [{ job := rawJob, errors := validation.errors }] }
  else
    let job := normalizeJob rawJob dateToday isoNow
    if st.ids.contains job.id then { st with skipped := st.skipped + 1 }
    else { st with added := st.added + 1,
                   jobs := st.jobs ++ [job], ids := st.ids ++ [job.id] }

/-- The pure core of `ingestJobsFromFile` (after the file read and JSON parse):
validate, normalize and deduplicate `rawJobs` against `existingJobs`; the
final `jobs` list is what `saveJobs` persists. -/
def ingestJobs (rawJobs : List RawJob) (existingJobs : List JobRecord)
    (dateToday isoNow : String) : IngestState :=
  rawJobs.foldl (ingestStep dateToday isoNow)
    { jobs := existingJobs, ids := existingJobs.map (fun j => j.id) }

/-! ## analyzer.js: git history -/

/-- The raw data the git invocations of `analyzeGitHistory` deliver when they
all succeed (`lastCommitTime` is `new Date(lastCommit).getTime()`). -/
structure GitRaw where
  lastCommit : String := ""
  lastCommitTime : Int := 0
  firstCommit : String := ""
  commitCount : Nat := 0
  currentBranch : String := ""
  hasRemote : Bool := false
  remoteBehind : Nat := 0
deriving DecidableEq

/-- The return shape of `analyzeGitHistory` (the catch branch fills only
`error`, `lastCommit: null`, `commitCount: 0` and `freshness`). -/
structure GitHistory where
  error : Option String := none
  lastCommit : Option String := none
  firstCommit : Option String := none
  commitCount : Nat := 0
  currentBranch : Option String := none
  hasRemote : Bool := false
  remoteBehind : Nat := 0
  daysSinceCommit : Option Int := none
  freshness : String := ""
deriving DecidableEq

/-- The freshness classification inside `analyzeGitHistory`. -/
def freshnessOf (daysSinceCommit : Int) : String :=
  if daysSinceCommit > 90 then "stale"
  else if daysSinceCommit > 30 then "aging"
  else "fresh"

/-- Model of `analyzeGitHistory` from src/src/lib/analyzer.js.  The whole body runs in
a `try`; `none` models any git failure reaching the `catch`, which returns the
sentinel record.  `nowMs` is `Date.now()`. -/
def analyzeGitHistory (gitData : Option GitRaw) (nowMs : Int) : GitHistory :=
  match gitData with
  | none =>
    { error := some "Not a git repository or git history unavailable",
      lastCommit := none, commitCount := 0, freshness := "unknown" }
  | some g =>
    let daysSinceCommit := Int.fdiv (nowMs - g.lastCommitTime) 86400000
    { lastCommit := some g.lastCommit, firstCommit := some g.firstCommit,
      commitCount := g.commitCount, currentBranch := some g.currentBranch,
      hasRemote := g.hasRemote, remoteBehind := g.remoteBehind,
      daysSinceCommit := some daysSinceCommit,
      freshness := freshnessOf daysSinceCommit }

/-! ## Basic lemmas: association lists -/

theorem alookup_aupsert {V : Type} (k : String) (f : Option V → V)
    (l : List (String × V)) (q : String) :
    alookup (aupsert k f l) q = if k = q then some (f (alookup l k)) else alookup l q := by
  induction l with
  | nil =>
    by_cases h : k = q <;> simp [aupsert, alookup, h]
  | cons p rest ih =>
    obtain ⟨k', v⟩ := p
    by_cases h1 : k' = k
    · subst h1
      by_cases h2 : k' = q <;> simp [aupsert, alookup, h2]
    · by_cases h2 : k' = q
      · subst h2
        have hkq : ¬ k = k' := fun he => h1 he.symm
        simp [aupsert, alookup, h1, hkq]
      · simp [aupsert, alookup, h1, h2, ih]

theorem alookup_eq_none_iff {V : Type} (l : List (String × V)) (q : String) :
    alookup l q = none ↔ q ∉ l.map Prod.fst := by
  induction l with
  | nil => simp [alookup]
  | cons p rest ih =>
    obtain ⟨k, v⟩ := p
    by_cases h : k = q
    · subst h
      simp [alookup]
    · have hqk : ¬ q = k := fun he => h he.symm
      simp [alookup, h, ih, hqk]

theorem alookup_isSome_iff {V : Type} (l : List (String × V)) (q : String) :
    (∃ v, alookup l q = some v) ↔ q ∈ l.map Prod.fst := by
  rw [← not_iff_not, ← alookup_eq_none_iff]
  cases alookup l q <;> simp

theorem mem_of_alookup_eq_some {V : Type} {l : List (String × V)} {k : String} {v : V}
    (h : alookup l k = some v) : (k, v) ∈ l := by
  induction l with
  | nil => simp [alookup] at h
  | cons p rest ih =>
    obtain ⟨k', v'⟩ := p
    by_cases he : k' = k
    · subst he
      simp [alookup] at h
      simp [h]
    · simp [alookup, he] at h
      simp [ih h]

theorem alookup_eq_some_of_mem_nodup {V : Type} {l : List (String × V)} {k : String} {v : V}
    (hnd : (l.map Prod.fst).Nodup) (h : (k, v) ∈ l) : alookup l k = some v := by
  induction l with
  | nil => simp at h
  | cons p rest ih =>
    obtain ⟨k', v'⟩ := p
    simp only [List.map_cons, List.nodup_cons, List.mem_map] at hnd
    rcases List.mem_cons.mp h with h1 | h1
    · cases h1
      simp [alookup]
    · have hne : k' ≠ k := by
        intro he
        subst he
        exact hnd.1 ⟨(k', v), h1, rfl⟩
      simp [alookup, hne, ih hnd.2 h1]

theorem mem_iff_alookup_eq_some {V : Type} {l : List (String × V)} (k : String) (v : V)
    (hnd : (l.map Prod.fst).Nodup) : (k, v) ∈ l ↔ alookup l k = some v :=
  ⟨alookup_eq_some_of_mem_nodup hnd, mem_of_alookup_eq_some⟩

theorem aupsert_keys {V : Type} (k : String) (f : Option V → V) (l : List (String × V)) :
    (aupsert k f l).map Prod.fst =
      if k ∈ l.map Prod.fst then l.map Prod.fst else l.map Prod.fst ++ [k] := by
  induction l with
  | nil => simp [aupsert]
  | cons p rest ih =>
    obtain ⟨k', v⟩ := p
    by_cases h : k' = k
    · subst h
      simp [aupsert]
    · have : ¬ k = k' := fun he => h he.symm
      by_cases h2 : k ∈ rest.map Prod.fst <;> simp [aupsert, h, ih, h2, this]

theorem nodup_keys_aupsert {V : Type} (k : String) (f : Option V → V) (l : List (String × V))
    (h : (l.map Prod.fst).Nodup) : ((aupsert k f l).map Prod.fst).Nodup := by
  rw [aupsert_keys]
  by_cases hm : k ∈ l.map Prod.fst
  · simpa [hm] using h
  · simp only [hm, if_false]
    exact List.Nodup.append h (List.nodup_singleton k) (by simpa using hm)

theorem mem_aupsert_of {V : Type} (k : String) (f : Option V → V) (l : List (String × V))
    (P : String × V → Prop)
    (hl : ∀ p ∈ l, P p)
    (hf : ∀ o : Option V, (∀ v, o = some v → P (k, v)) → P (k, f o)) :
    ∀ p ∈ aupsert k f l, P p := by
  induction l with
  | nil =>
    intro p hp
    simp [aupsert] at hp
    subst hp
    exact hf none (by simp)
  | cons q rest ih =>
    obtain ⟨k', v⟩ := q
    intro p hp
    by_cases h : k' = k
    · subst h
      simp [aupsert] at hp
      rcases hp with hp | hp
      · subst hp
        exact hf (some v) (by
          intro w hw
          cases hw
          exact hl _ (by simp))
      · exact hl _ (by simp [hp])
    · simp [aupsert, h] at hp
      rcases hp with hp | hp
      · subst hp
        exact hl _ (by simp)
      · exact ih (fun q hq => hl q (by simp [hq])) p hp

theorem alookup_map_entry {V W : Type} (g : String → V → W) (l : List (String × V)) (q : String) :
    alookup (l.map (fun p => (p.1, g p.1 p.2))) q = (alookup l q).map (g q) := by
  induction l with
  | nil => simp [alookup]
  | cons p rest ih =>
    obtain ⟨k, v⟩ := p
    by_cases h : k = q
    · subst h
      simp [alookup]
    · simp [alookup, h, ih]

/-! ## Basic lemmas: stable sort membership, insertUniq, domain folds -/

theorem mem_insLe {α : Type} (le : α → α → Bool) (x a : α) (l : List α) :
    a ∈ insLe le x l ↔ a = x ∨ a ∈ l := by
  induction l with
  | nil => simp [insLe]
  | cons y ys ih =>
    by_cases h : le y x = true <;>
      · simp [insLe, h, ih]
        try tauto

theorem mem_foldl_insLe {α : Type} (le : α → α → Bool) (l : List α) :
    ∀ (acc : List α) (a : α),
      a ∈ l.foldl (fun acc x => insLe le x acc) acc ↔ a ∈ acc ∨ a ∈ l := by
  induction l with
  | nil => simp
  | cons x xs ih =>
    intro acc a
    rw [List.foldl_cons, ih, mem_insLe]
    simp
    tauto

theorem mem_stableSortBy {α : Type} (le : α → α → Bool) (l : List α) (a : α) :
    a ∈ stableSortBy le l ↔ a ∈ l := by
  rw [stableSortBy, mem_foldl_insLe]
  simp

theorem mem_insertUniq (l : List String) (x y : String) :
    y ∈ insertUniq l x ↔ y ∈ l ∨ y = x := by
  unfold insertUniq
  by_cases h : x ∈ l
  · simp only [h, if_true]
    constructor
    · exact Or.inl
    · rintro (hy | rfl) <;> assumption
  · simp [h]

theorem mem_addMappedDomains (table : List (String × String)) (keys : List String) :
    ∀ (acc : List String) (d : String),
      d ∈ addMappedDomains table acc keys ↔
        d ∈ acc ∨ ∃ k, k ∈ keys ∧ alookup table k = some d := by
  induction keys with
  | nil => simp [addMappedDomains]
  | cons k ks ih =>
    intro acc d
    unfold addMappedDomains at ih ⊢
    rw [List.foldl_cons]
    cases htab : alookup table k with
    | none =>
      rw [ih]
      constructor
      · rintro (h | ⟨k', hk', hl⟩)
        · exact Or.inl h
        · exact Or.inr ⟨k', by simp [hk'], hl⟩
      · rintro (h | ⟨k', hk', hl⟩)
        · exact Or.inl h
        · rcases List.mem_cons.mp hk' with rfl | hk'
          · rw [htab] at hl
            cases hl
          · exact Or.inr ⟨k', hk', hl⟩
    | some dom =>
      rw [ih]
      rw [mem_insertUniq]
      constructor
      · rintro ((h | rfl) | ⟨k', hk', hl⟩)
        · exact Or.inl h
        · exact Or.inr ⟨k, by simp, htab⟩
        · exact Or.inr ⟨k', by simp [hk'], hl⟩
      · rintro (h | ⟨k', hk', hl⟩)
        · exact Or.inl (Or.inl h)
        · rcases List.mem_cons.mp hk' with rfl | hk'
          · rw [htab] at hl
            cases hl
            exact Or.inl (Or.inr rfl)
          · exact Or.inr ⟨k', hk', hl⟩

/-! ## Aggregation characterizations: lookups of the count maps -/

/-- Componentwise sum of two `languageCounts` cells. -/
def addLC (a b : LangCount) : LangCount :=
  { count := a.count + b.count, repos := a.repos + b.repos }

/-- Merging a contribution into an optional cell: nothing happens for an
empty contribution, otherwise the cell is created or accumulated. -/
def mergeLC (o : Option LangCount) (c : LangCount) : Option LangCount :=
  if c.repos = 0 then o
  else some (addLC (o.getD { count := 0, repos := 0 }) c)

/-- Total contribution of one repo's `languages` array to the cell of
language `q`. -/
def langContrib (q : String) (langs : List LangStat) : LangCount :=
  { count := ((langs.filter (fun l => l.name == q)).map LangStat.count).sum,
    repos := (langs.filter (fun l => l.name == q)).length }

theorem langContrib_count_eq_zero (q : String) (langs : List LangStat)
    (h : (langContrib q langs).repos = 0) : (langContrib q langs).count = 0 := by
  unfold langContrib at h ⊢
  simp only at h ⊢
  rw [List.length_eq_zero] at h
  rw [h]
  simp

theorem alookup_foldl_bumpLanguage (langs : List LangStat) :
    ∀ (acc : List (String × LangCount)) (q : String),
      alookup (langs.foldl bumpLanguage acc) q = mergeLC (alookup acc q) (langContrib q langs) := by
  induction langs with
  | nil =>
    intro acc q
    simp [langContrib, mergeLC]
  | cons l rest ih =>
    intro acc q
    rw [List.foldl_cons, ih]
    show mergeLC (alookup (bumpLanguage acc l) q) (langContrib q rest)
      = mergeLC (alookup acc q) (langContrib q (l :: rest))
    rw [bumpLanguage, alookup_aupsert]
    by_cases h : l.name = q
    · rw [if_pos h, h]
      have hfil : (l :: rest).filter (fun x => x.name == q) =
          l :: rest.filter (fun x => x.name == q) := by
        rw [List.filter_cons_of_pos]
        simp [h]
      have hc : langContrib q (l :: rest) =
          { count := l.count + (langContrib q rest).count,
            repos := (langContrib q rest).repos + 1 } := by
        unfold langContrib
        rw [hfil]
        simp
      rw [hc]
      rcases hz : (langContrib q rest).repos with _ | n
      · have hcz : (langContrib q rest).count = 0 := langContrib_count_eq_zero q rest hz
        cases ho : alookup acc q <;>
          simp [mergeLC, addLC, hz, hcz, ho]
      · cases ho : alookup acc q <;>
          · simp [mergeLC, addLC, hz, ho]
            try omega
    · rw [if_neg h]
      have hfil : (l :: rest).filter (fun x => x.name == q) =
          rest.filter (fun x => x.name == q) := by
        rw [List.filter_cons_of_neg]
        simp [h]
      have hc : langContrib q (l :: rest) = langContrib q rest := by
        unfold langContrib
        rw [hfil]
      rw [hc]

theorem mergeLC_assoc (o : Option LangCount) (a b : LangCount)
    (ha : a.repos = 0 → a.count = 0) (hb : b.repos = 0 → b.count = 0) :
    mergeLC (mergeLC o a) b = mergeLC o (addLC a b) := by
  obtain ⟨ac, ar⟩ := a
  obtain ⟨bc, br⟩ := b
  simp only at ha hb
  rcases Nat.eq_zero_or_pos ar with har | har
  · have hac : ac = 0 := ha har
    subst har; subst hac
    cases o <;> simp [mergeLC, addLC]
  · rcases Nat.eq_zero_or_pos br with hbr | hbr
    · have hbc : bc = 0 := hb hbr
      subst hbr; subst hbc
      cases o <;> simp [mergeLC, addLC, Nat.pos_iff_ne_zero.mp har]
    · cases o <;>
        · simp [mergeLC, addLC, Nat.pos_iff_ne_zero.mp har, Nat.pos_iff_ne_zero.mp hbr,
            Nat.add_eq_zero]
          try omega

theorem addLC_comm (a b : LangCount) : addLC a b = addLC b a := by
  simp [addLC, Nat.add_comm]

theorem mergeLC_swap (o : Option LangCount) (a b : LangCount)
    (ha : a.repos = 0 → a.count = 0) (hb : b.repos = 0 → b.count = 0) :
    mergeLC (mergeLC o a) b = mergeLC (mergeLC o b) a := by
  rw [mergeLC_assoc o a b ha hb, mergeLC_assoc o b a hb ha, addLC_comm]

/-- The `languageCounts` component of one loop iteration. -/
def langStep (acc : List (String × LangCount)) (r : AnalyzedRepo) : List (String × LangCount) :=
  if r.excluded then acc else r.languages.foldl bumpLanguage acc

/-- One repo's total contribution to the `languageCounts` cell of `q`
(nothing when excluded). -/
def repoLangContrib (q : String) (r : AnalyzedRepo) : LangCount :=
  if r.excluded then { count := 0, repos := 0 } else langContrib q r.languages

theorem repoLangContrib_count_eq_zero (q : String) (r : AnalyzedRepo)
    (h : (repoLangContrib q r).repos = 0) : (repoLangContrib q r).count = 0 := by
  unfold repoLangContrib at h ⊢
  by_cases he : r.excluded
  · simp [he]
  · simp only [he, if_false] at h ⊢
    exact langContrib_count_eq_zero q r.languages h

theorem alookup_langStep (acc : List (String × LangCount)) (r : AnalyzedRepo) (q : String) :
    alookup (langStep acc r) q = mergeLC (alookup acc q) (repoLangContrib q r) := by
  unfold langStep repoLangContrib
  by_cases h : r.excluded
  · simp [h, mergeLC]
  · simp [h, alookup_foldl_bumpLanguage]

/-! ## Generic permutation invariance of lookup-determined folds -/

theorem alookup_foldl_congr {V β : Type} (step : List (String × V) → β → List (String × V))
    (F : β → String → Option V → Option V)
    (hF : ∀ acc r q, alookup (step acc r) q = F r q (alookup acc q)) :
    ∀ (rs : List β) (acc₁ acc₂ : List (String × V)),
      (∀ q, alookup acc₁ q = alookup acc₂ q) →
      ∀ q, alookup (rs.foldl step acc₁) q = alookup (rs.foldl step acc₂) q := by
  intro rs
  induction rs with
  | nil => intro acc₁ acc₂ h q; exact h q
  | cons r rest ih =>
    intro acc₁ acc₂ h q
    rw [List.foldl_cons, List.foldl_cons]
    exact ih _ _ (fun q' => by rw [hF, hF, h q']) q

theorem alookup_foldl_perm {V β : Type} (step : List (String × V) → β → List (String × V))
    (F : β → String → Option V → Option V)
    (hF : ∀ acc r q, alookup (step acc r) q = F r q (alookup acc q))
    (hcomm : ∀ r r' q o, F r q (F r' q o) = F r' q (F r q o)) :
    ∀ {rs rs' : List β}, rs.Perm rs' →
      ∀ (acc : List (String × V)) (q : String),
        alookup (rs.foldl step acc) q = alookup (rs'.foldl step acc) q := by
  intro rs rs' h
  induction h with
  | nil => intro acc q; rfl
  | cons x _ ih =>
    intro acc q
    rw [List.foldl_cons, List.foldl_cons]
    exact ih _ q
  | swap x y l =>
    intro acc q
    rw [List.foldl_cons, List.foldl_cons, List.foldl_cons, List.foldl_cons]
    refine alookup_foldl_congr step F hF l _ _ (fun q' => ?_) q
    rw [hF, hF, hF, hF]
    exact hcomm x y q' (alookup acc q')
  | trans _ _ ih₁ ih₂ =>
    intro acc q
    exact (ih₁ acc q).trans (ih₂ acc q)

/-- The accumulated `languageCounts` map of `buildSkillsProfile`. -/
def languageCountsOf (rs : List AnalyzedRepo) : List (String × LangCount) :=
  rs.foldl langStep []

theorem alookup_languageCountsOf_perm {rs rs' : List AnalyzedRepo} (h : rs.Perm rs')
    (q : String) : alookup (languageCountsOf rs) q = alookup (languageCountsOf rs') q :=
  alookup_foldl_perm langStep (fun r q o => mergeLC o (repoLangContrib q r))
    (fun acc r q => alookup_langStep acc r q)
    (fun r r' q o => mergeLC_swap o (repoLangContrib q r') (repoLangContrib q r)
      (repoLangContrib_count_eq_zero q r') (repoLangContrib_count_eq_zero q r))
    h [] q

/-- Merging `n` occurrences into an optional `patternCounts` cell. -/
def mergePC (o : Option Nat) (n : Nat) : Option Nat :=
  if n = 0 then o else some (o.getD 0 + n)

theorem alookup_foldl_bumpPattern (tokens : List String) :
    ∀ (acc : List (String × Nat)) (q : String),
      alookup (tokens.foldl bumpPattern acc) q = mergePC (alookup acc q) (tokens.count q) := by
  induction tokens with
  | nil =>
    intro acc q
    simp [mergePC]
  | cons t rest ih =>
    intro acc q
    rw [List.foldl_cons, ih]
    show mergePC (alookup (bumpPattern acc t) q) (rest.count q)
      = mergePC (alookup acc q) ((t :: rest).count q)
    rw [bumpPattern, alookup_aupsert]
    by_cases h : t = q
    · subst h
      rw [if_pos rfl]
      rw [List.count_cons_self]
      rcases hn : rest.count t with _ | n <;>
        cases ho : alookup acc t <;>
          · simp [mergePC, ho, hn]
            try omega
    · rw [if_neg h]
      rw [List.count_cons_of_ne (fun he => h he.symm)]

theorem mergePC_add (o : Option Nat) (m n : Nat) :
    mergePC (mergePC o m) n = mergePC o (m + n) := by
  rcases Nat.eq_zero_or_pos m with hm | hm
  · subst hm
    simp [mergePC]
  · rcases Nat.eq_zero_or_pos n with hn | hn
    · subst hn
      simp [mergePC, Nat.pos_iff_ne_zero.mp hm]
    · simp [mergePC, Nat.pos_iff_ne_zero.mp hm, Nat.pos_iff_ne_zero.mp hn, Nat.add_eq_zero]
      omega

/-- The `patternCounts` component of one loop iteration. -/
def patStep (acc : List (String × Nat)) (r : AnalyzedRepo) : List (String × Nat) :=
  if r.excluded then acc else r.patterns.foldl bumpPattern acc

/-- One repo's number of occurrences of pattern `q` (0 when excluded). -/
def repoPatContrib (q : String) (r : AnalyzedRepo) : Nat :=
  if r.excluded then 0 else r.patterns.count q

theorem alookup_patStep (acc : List (String × Nat)) (r : AnalyzedRepo) (q : String) :
    alookup (patStep acc r) q = mergePC (alookup acc q) (repoPatContrib q r) := by
  unfold patStep repoPatContrib
  by_cases h : r.excluded
  · simp [h, mergePC]
  · simp [h, alookup_foldl_bumpPattern]

/-- The accumulated `patternCounts` map of `buildSkillsProfile`. -/
def patternCountsOf (rs : List AnalyzedRepo) : List (String × Nat) :=
  rs.foldl patStep []

theorem alookup_patternCountsOf_perm {rs rs' : List AnalyzedRepo} (h : rs.Perm rs')
    (q : String) : alookup (patternCountsOf rs) q = alookup (patternCountsOf rs') q :=
  alookup_foldl_perm patStep (fun r q o => mergePC o (repoPatContrib q r))
    (fun acc r q => alookup_patStep acc r q)
    (fun r r' q o =>
      show mergePC (mergePC o (repoPatContrib q r')) (repoPatContrib q r)
          = mergePC (mergePC o (repoPatContrib q r)) (repoPatContrib q r') by
        rw [mergePC_add, mergePC_add, Nat.add_comm])
    h [] q

/-- Merging `n` occurrences into an optional `frameworkCounts` cell for key
`q` (nothing unless `q` has a `FRAMEWORK_CATEGORIES` entry). -/
def fwApply (q : String) (o : Option FrameworkCount) (n : Nat) : Option FrameworkCount :=
  match alookup FRAMEWORK_CATEGORIES q with
  | none => o
  | some info =>
    if n = 0 then o
    else some (match o with
      | some v => { v with repos := v.repos + n }
      | none => { category := info.category, name := info.name,
                  weight10 := info.weight10, repos := n })

theorem alookup_foldl_bumpFramework (tokens : List String) :
    ∀ (acc : List (String × FrameworkCount)) (q : String),
      alookup (tokens.foldl bumpFramework acc) q = fwApply q (alookup acc q) (tokens.count q) := by
  induction tokens with
  | nil =>
    intro acc q
    unfold fwApply
    cases alookup FRAMEWORK_CATEGORIES q <;> simp
  | cons t rest ih =>
    intro acc q
    rw [List.foldl_cons, ih]
    show fwApply q (alookup (bumpFramework acc t) q) (rest.count q)
      = fwApply q (alookup acc q) ((t :: rest).count q)
    by_cases h : t = q
    · subst h
      rw [List.count_cons_self]
      unfold bumpFramework
      cases htab : alookup FRAMEWORK_CATEGORIES t with
      | none =>
        unfold fwApply
        rw [htab]
      | some info =>
        rw [alookup_aupsert, if_pos rfl]
        unfold fwApply
        rw [htab]
        rcases hn : rest.count t with _ | n <;>
          cases ho : alookup acc t <;>
            · simp [ho, hn]
              try omega
    · rw [List.count_cons_of_ne (fun he => h he.symm)]
      have hb : alookup (bumpFramework acc t) q = alookup acc q := by
        unfold bumpFramework
        cases htab : alookup FRAMEWORK_CATEGORIES t with
        | none => rfl
        | some info =>
          rw [alookup_aupsert, if_neg h]
      rw [hb]

theorem fwApply_add (q : String) (o : Option FrameworkCount) (m n : Nat) :
    fwApply q (fwApply q o m) n = fwApply q o (m + n) := by
  unfold fwApply
  cases htab : alookup FRAMEWORK_CATEGORIES q with
  | none => rfl
  | some info =>
    rcases Nat.eq_zero_or_pos m with hm | hm
    · subst hm
      simp
    · rcases Nat.eq_zero_or_pos n with hn | hn
      · subst hn
        simp [Nat.pos_iff_ne_zero.mp hm]
      · cases o <;>
          · simp [Nat.pos_iff_ne_zero.mp hm, Nat.pos_iff_ne_zero.mp hn, Nat.add_eq_zero]
            try omega

/-- The `frameworkCounts` component of one loop iteration. -/
def fwStep (acc : List (String × FrameworkCount)) (r : AnalyzedRepo) :
    List (String × FrameworkCount) :=
  if r.excluded then acc else r.patterns.foldl bumpFramework acc

theorem alookup_fwStep (acc : List (String × FrameworkCount)) (r : AnalyzedRepo) (q : String) :
    alookup (fwStep acc r) q = fwApply q (alookup acc q) (repoPatContrib q r) := by
  unfold fwStep repoPatContrib
  by_cases h : r.excluded
  · unfold fwApply
    cases alookup FRAMEWORK_CATEGORIES q <;> simp [h]
  · simp [h, alookup_foldl_bumpFramework]

/-- The accumulated `frameworkCounts` map of `buildSkillsProfile`. -/
def frameworkCountsOf (rs : List AnalyzedRepo) : List (String × FrameworkCount) :=
  rs.foldl fwStep []

theorem alookup_frameworkCountsOf_perm {rs rs' : List AnalyzedRepo} (h : rs.Perm rs')
    (q : String) : alookup (frameworkCountsOf rs) q = alookup (frameworkCountsOf rs') q :=
  alookup_foldl_perm fwStep (fun r q o => fwApply q o (repoPatContrib q r))
    (fun acc r q => alookup_fwStep acc r q)
    (fun r r' q o =>
      show fwApply q (fwApply q o (repoPatContrib q r')) (repoPatContrib q r)
          = fwApply q (fwApply q o (repoPatContrib q r)) (repoPatContrib q r') by
        rw [fwApply_add, fwApply_add, Nat.add_comm])
    h [] q

/-! ## Key uniqueness and static-field invariants of the count maps -/

theorem nodup_keys_bumpLanguage (acc : List (String × LangCount)) (l : LangStat)
    (h : (acc.map Prod.fst).Nodup) : ((bumpLanguage acc l).map Prod.fst).Nodup :=
  nodup_keys_aupsert _ _ _ h

theorem nodup_keys_foldl_bumpFramework (tokens : List String) :
    ∀ (acc : List (String × FrameworkCount)),
      (acc.map Prod.fst).Nodup → ((tokens.foldl bumpFramework acc).map Prod.fst).Nodup := by
  induction tokens with
  | nil => intro acc h; exact h
  | cons t rest ih =>
    intro acc h
    rw [List.foldl_cons]
    refine ih _ ?_
    unfold bumpFramework
    cases alookup FRAMEWORK_CATEGORIES t with
    | none => exact h
    | some info => exact nodup_keys_aupsert _ _ _ h

theorem nodup_keys_frameworkCountsOf (rs : List AnalyzedRepo) :
    ((frameworkCountsOf rs).map Prod.fst).Nodup := by
  have main : ∀ (l : List AnalyzedRepo) (acc : List (String × FrameworkCount)),
      (acc.map Prod.fst).Nodup → ((l.foldl fwStep acc).map Prod.fst).Nodup := by
    intro l
    induction l with
    | nil => intro acc h; exact h
    | cons r rest ih =>
      intro acc h
      rw [List.foldl_cons]
      refine ih _ ?_
      unfold fwStep
      by_cases he : r.excluded
      · simpa [he] using h
      · simp only [he, if_false]
        exact nodup_keys_foldl_bumpFramework r.patterns acc h
  exact main rs [] (by simp)

/-- Every cell of `frameworkCounts` carries exactly the static fields of its
key's `FRAMEWORK_CATEGORIES` entry. -/
theorem frameworkCountsOf_entry_table (rs : List AnalyzedRepo) :
    ∀ p ∈ frameworkCountsOf rs,
      alookup FRAMEWORK_CATEGORIES p.1 =
        some { category := p.2.category, name := p.2.name, weight10 := p.2.weight10 } := by
  have hbump : ∀ (tokens : List String) (acc : List (String × FrameworkCount)),
      (∀ p ∈ acc, alookup FRAMEWORK_CATEGORIES p.1 =
        some { category := p.2.category, name := p.2.name, weight10 := p.2.weight10 }) →
      ∀ p ∈ tokens.foldl bumpFramework acc,
        alookup FRAMEWORK_CATEGORIES p.1 =
          some { category := p.2.category, name := p.2.name, weight10 := p.2.weight10 } := by
    intro tokens
    induction tokens with
    | nil => intro acc h; exact h
    | cons t rest ih =>
      intro acc h
      rw [List.foldl_cons]
      refine ih _ ?_
      unfold bumpFramework
      cases htab : alookup FRAMEWORK_CATEGORIES t with
      | none => exact h
      | some info =>
        refine mem_aupsert_of t _ acc _ h ?_
        intro o ho
        cases o with
        | none => simpa using htab
        | some v =>
          have hv := ho v rfl
          simp only at hv
          simpa using hv
  have main : ∀ (l : List AnalyzedRepo) (acc : List (String × FrameworkCount)),
      (∀ p ∈ acc, alookup FRAMEWORK_CATEGORIES p.1 =
        some { category := p.2.category, name := p.2.name, weight10 := p.2.weight10 }) →
      ∀ p ∈ l.foldl fwStep acc,
        alookup FRAMEWORK_CATEGORIES p.1 =
          some { category := p.2.category, name := p.2.name, weight10 := p.2.weight10 } := by
    intro l
    induction l with
    | nil => intro acc h; exact h
    | cons r rest ih =>
      intro acc h
      rw [List.foldl_cons]
      refine ih _ ?_
      unfold fwStep
      by_cases he : r.excluded
      · simpa [he] using h
      · simp only [he, if_false]
        exact hbump r.patterns acc h
  exact main rs [] (by simp)

/-! ## Projections of the aggregation loop -/

theorem foldl_aggRepoStep_languageCounts (rs : List AnalyzedRepo) :
    ∀ st : AggState, (rs.foldl aggRepoStep st).languageCounts = rs.foldl langStep st.languageCounts := by
  induction rs with
  | nil => intro st; rfl
  | cons r rest ih =>
    intro st
    rw [List.foldl_cons, List.foldl_cons, ih]
    by_cases h : r.excluded <;> simp [aggRepoStep, langStep, h]

theorem foldl_aggRepoStep_patternCounts (rs : List AnalyzedRepo) :
    ∀ st : AggState, (rs.foldl aggRepoStep st).patternCounts = rs.foldl patStep st.patternCounts := by
  induction rs with
  | nil => intro st; rfl
  | cons r rest ih =>
    intro st
    rw [List.foldl_cons, List.foldl_cons, ih]
    by_cases h : r.excluded <;> simp [aggRepoStep, patStep, h]

theorem foldl_aggRepoStep_frameworkCounts (rs : List AnalyzedRepo) :
    ∀ st : AggState, (rs.foldl aggRepoStep st).frameworkCounts = rs.foldl fwStep st.frameworkCounts := by
  induction rs with
  | nil => intro st; rfl
  | cons r rest ih =>
    intro st
    rw [List.foldl_cons, List.foldl_cons, ih]
    by_cases h : r.excluded <;> simp [aggRepoStep, fwStep, h]

theorem aggregateRepos_languageCounts (rs : List AnalyzedRepo) (now : Int) :
    (aggregateRepos rs now).languageCounts = languageCountsOf rs := by
  unfold aggregateRepos languageCountsOf
  rw [foldl_aggRepoStep_languageCounts]

theorem aggregateRepos_patternCounts (rs : List AnalyzedRepo) (now : Int) :
    (aggregateRepos rs now).patternCounts = patternCountsOf rs := by
  unfold aggregateRepos patternCountsOf
  rw [foldl_aggRepoStep_patternCounts]

theorem aggregateRepos_frameworkCounts (rs : List AnalyzedRepo) (now : Int) :
    (aggregateRepos rs now).frameworkCounts = frameworkCountsOf rs := by
  unfold aggregateRepos frameworkCountsOf
  rw [foldl_aggRepoStep_frameworkCounts]

/-! ## Shape of the built profile -/

theorem buildSkillsProfile_languages (rs : List AnalyzedRepo) (now : Int) :
    (buildSkillsProfile rs now).languages =
      (languageCountsOf rs).map (fun nd => (nd.1, mkLanguageEntry nd.1 nd.2 rs.length)) := by
  show (aggregateRepos rs now).languageCounts.map
      (fun nd => (nd.1, mkLanguageEntry nd.1 nd.2 rs.length)) = _
  rw [aggregateRepos_languageCounts]

theorem buildSkillsProfile_frameworks (rs : List AnalyzedRepo) (now : Int) :
    (buildSkillsProfile rs now).frameworks =
      (frameworkCountsOf rs).map (fun kd => (kd.2.name, mkFrameworkEntry kd.1 kd.2 rs.length)) := by
  show (aggregateRepos rs now).frameworkCounts.map
      (fun kd => (kd.2.name, mkFrameworkEntry kd.1 kd.2 rs.length)) = _
  rw [aggregateRepos_frameworkCounts]

theorem buildSkillsProfile_patterns (rs : List AnalyzedRepo) (now : Int) :
    (buildSkillsProfile rs now).patterns = (patternCountsOf rs).map Prod.fst := by
  show (aggregateRepos rs now).patternCounts.map (fun p => p.1) = _
  rw [aggregateRepos_patternCounts]

theorem buildSkillsProfile_domains (rs : List AnalyzedRepo) (now : Int) :
    (buildSkillsProfile rs now).domains =
      deriveDomains ((patternCountsOf rs).map Prod.fst)
        ((frameworkCountsOf rs).map (fun kd => (kd.2.name, mkFrameworkEntry kd.1 kd.2 rs.length))) := by
  show deriveDomains ((aggregateRepos rs now).patternCounts.map (fun p => p.1))
      ((aggregateRepos rs now).frameworkCounts.map
        (fun kd => (kd.2.name, mkFrameworkEntry kd.1 kd.2 rs.length))) = _
  rw [aggregateRepos_patternCounts, aggregateRepos_frameworkCounts]

theorem buildSkillsProfile_totalRepos (rs : List AnalyzedRepo) (now : Int) :
    (buildSkillsProfile rs now).summary.totalRepos = rs.length := rfl

/-! ## Excluded records -/

theorem aggRepoStep_excluded (st : AggState) (r : AnalyzedRepo) (h : r.excluded = true) :
    aggRepoStep st r = st := by
  simp [aggRepoStep, h]

theorem aggregateRepos_insert_excluded (rs₁ rs₂ : List AnalyzedRepo) (r : AnalyzedRepo)
    (now : Int) (h : r.excluded = true) :
    aggregateRepos (rs₁ ++ r :: rs₂) now = aggregateRepos (rs₁ ++ rs₂) now := by
  unfold aggregateRepos
  rw [List.foldl_append, List.foldl_append, List.foldl_cons, aggRepoStep_excluded _ _ h]

theorem languageCountsOf_append_excluded (rs : List AnalyzedRepo) (r : AnalyzedRepo)
    (h : r.excluded = true) : languageCountsOf (rs ++ [r]) = languageCountsOf rs := by
  unfold languageCountsOf
  rw [List.foldl_append]
  simp [langStep, h]

theorem frameworkCountsOf_append_excluded (rs : List AnalyzedRepo) (r : AnalyzedRepo)
    (h : r.excluded = true) : frameworkCountsOf (rs ++ [r]) = frameworkCountsOf rs := by
  unfold frameworkCountsOf
  rw [List.foldl_append]
  simp [fwStep, h]

/-! ## Proficiency tiers -/

/-- Numeric rank of a proficiency tier (`familiar` 0 .. `expert` 3). -/
def tierRank (tier : String) : Nat :=
  if tier = "expert" then 3
  else if tier = "advanced" then 2
  else if tier = "intermediate" then 1
  else 0

theorem tierRank_mono_repoCount (rc₁ rc₂ t w10 : Nat) (h : rc₁ ≤ rc₂) :
    tierRank (calculateProficiency rc₁ t w10) ≤ tierRank (calculateProficiency rc₂ t w10) := by
  have hmul : rc₁ * w10 ≤ rc₂ * w10 := Nat.mul_le_mul_right w10 h
  have he : tierRank "expert" = 3 := by decide
  have ha : tierRank "advanced" = 2 := by decide
  have hi : tierRank "intermediate" = 1 := by decide
  have hf : tierRank "familiar" = 0 := by decide
  unfold calculateProficiency
  split_ifs <;> simp only [he, ha, hi, hf] <;> omega

theorem tierRank_anti_totalRepos (rc t₁ t₂ w10 : Nat) (h : t₁ ≤ t₂) :
    tierRank (calculateProficiency rc t₂ w10) ≤ tierRank (calculateProficiency rc t₁ w10) := by
  have h5 : 5 * t₁ ≤ 5 * t₂ := Nat.mul_le_mul_left 5 h
  have h3 : 3 * t₁ ≤ 3 * t₂ := Nat.mul_le_mul_left 3 h
  have he : tierRank "expert" = 3 := by decide
  have ha : tierRank "advanced" = 2 := by decide
  have hi : tierRank "intermediate" = 1 := by decide
  have hf : tierRank "familiar" = 0 := by decide
  unfold calculateProficiency
  split_ifs <;> simp only [he, ha, hi, hf] <;> omega

/-- The rational ratio `(repoCount / totalRepos) * weight` the source computes,
with `weight = weight10 / 10`. -/
def ratioOf (repoCount totalRepos weight10 : Nat) : ℚ :=
  ((repoCount : ℚ) / (totalRepos : ℚ)) * ((weight10 : ℚ) / 10)

theorem ratioOf_ge_half_iff (rc t w10 : Nat) (ht : 1 ≤ t) :
    (1/2 ≤ ratioOf rc t w10) ↔ 5 * t ≤ rc * w10 := by
  have ht0 : (0 : ℚ) < (t : ℚ) := by exact_mod_cast Nat.lt_of_lt_of_le Nat.zero_lt_one ht
  unfold ratioOf
  rw [div_mul_div_comm, le_div_iff₀ (by positivity)]
  have h1 : (1/2 : ℚ) * ((t : ℚ) * 10) = ((5 * t : Nat) : ℚ) := by push_cast; ring
  have h2 : ((rc : ℚ) * (w10 : ℚ)) = ((rc * w10 : Nat) : ℚ) := by push_cast; ring
  rw [h1, h2]
  exact Nat.cast_le

theorem ratioOf_ge_threeTenths_iff (rc t w10 : Nat) (ht : 1 ≤ t) :
    (3/10 ≤ ratioOf rc t w10) ↔ 3 * t ≤ rc * w10 := by
  have ht0 : (0 : ℚ) < (t : ℚ) := by exact_mod_cast Nat.lt_of_lt_of_le Nat.zero_lt_one ht
  unfold ratioOf
  rw [div_mul_div_comm, le_div_iff₀ (by positivity)]
  have h1 : (3/10 : ℚ) * ((t : ℚ) * 10) = ((3 * t : Nat) : ℚ) := by push_cast; ring
  have h2 : ((rc : ℚ) * (w10 : ℚ)) = ((rc * w10 : Nat) : ℚ) := by push_cast; ring
  rw [h1, h2]
  exact Nat.cast_le

theorem ratioOf_ge_threeTwentieths_iff (rc t w10 : Nat) (ht : 1 ≤ t) :
    (3/20 ≤ ratioOf rc t w10) ↔ 3 * t ≤ 2 * (rc * w10) := by
  have ht0 : (0 : ℚ) < (t : ℚ) := by exact_mod_cast Nat.lt_of_lt_of_le Nat.zero_lt_one ht
  unfold ratioOf
  rw [div_mul_div_comm, le_div_iff₀ (by positivity)]
  constructor
  · intro h
    have : ((3 * t : Nat) : ℚ) ≤ ((2 * (rc * w10) : Nat) : ℚ) := by push_cast; linarith
    exact_mod_cast this
  · intro h
    have : ((3 * t : Nat) : ℚ) ≤ ((2 * (rc * w10) : Nat) : ℚ) := by exact_mod_cast h
    push_cast at this
    linarith

theorem freshnessOf_eq_stale_iff (d : Int) : freshnessOf d = "stale" ↔ d > 90 := by
  unfold freshnessOf
  split_ifs with ha hb
  · exact iff_of_true rfl ha
  · exact iff_of_false (by decide) ha
  · exact iff_of_false (by decide) ha

theorem freshnessOf_eq_aging_iff (d : Int) : freshnessOf d = "aging" ↔ (30 < d ∧ d ≤ 90) := by
  unfold freshnessOf
  split_ifs with ha hb
  · exact iff_of_false (by decide) (by omega)
  · exact iff_of_true rfl (by omega)
  · exact iff_of_false (by decide) (by omega)

theorem freshnessOf_eq_fresh_iff (d : Int) : freshnessOf d = "fresh" ↔ d ≤ 30 := by
  unfold freshnessOf
  split_ifs with ha hb
  · exact iff_of_false (by decide) (by omega)
  · exact iff_of_false (by decide) (by omega)
  · exact iff_of_true rfl (by omega)

/-! ## Claim theorems -/

/-- Claim C7: for every repoCount, totalRepos >= 1 and weight, the proficiency
tier is the inclusive-boundary step function of the rational ratio
`(repoCount / totalRepos) * weight`; a ratio of exactly 0.5 is `expert`; and
for fixed totalRepos (and weight) the tier never decreases as repoCount
increases. -/
theorem skills_c7_theorem (rc t w10 : Nat) (ht : 1 ≤ t) :
    calculateProficiency rc t w10 =
      (if ratioOf rc t w10 ≥ 1/2 then "expert"
       else if ratioOf rc t w10 ≥ 3/10 then "advanced"
       else if ratioOf rc t w10 ≥ 3/20 then "intermediate"
       else "familiar") ∧
    (ratioOf rc t w10 = 1/2 → calculateProficiency rc t w10 = "expert") ∧
    (∀ rc₁ rc₂ : Nat, rc₁ ≤ rc₂ →
      tierRank (calculateProficiency rc₁ t w10) ≤ tierRank (calculateProficiency rc₂ t w10)) := by
  have e1 := ratioOf_ge_half_iff rc t w10 ht
  have e2 := ratioOf_ge_threeTenths_iff rc t w10 ht
  have e3 := ratioOf_ge_threeTwentieths_iff rc t w10 ht
  refine ⟨?_, ?_, fun rc₁ rc₂ h => tierRank_mono_repoCount rc₁ rc₂ t w10 h⟩
  · unfold calculateProficiency
    exact (if_congr e1 rfl (if_congr e2 rfl (if_congr e3 rfl rfl))).symm
  · intro heq
    unfold calculateProficiency
    rw [if_pos (e1.mp (le_of_eq heq.symm))]

/-- Witness for C7 at repoCount 5, totalRepos 10, weight 1 (scenario B). -/
theorem skills_c7_witness :
    1 ≤ 10 ∧
    (calculateProficiency 5 10 10 =
      (if ratioOf 5 10 10 ≥ 1/2 then "expert"
       else if ratioOf 5 10 10 ≥ 3/10 then "advanced"
       else if ratioOf 5 10 10 ≥ 3/20 then "intermediate"
       else "familiar") ∧
    (ratioOf 5 10 10 = 1/2 → calculateProficiency 5 10 10 = "expert") ∧
    (∀ rc₁ rc₂ : Nat, rc₁ ≤ rc₂ →
      tierRank (calculateProficiency rc₁ 10 10) ≤ tierRank (calculateProficiency rc₂ 10 10))) :=
  ⟨by decide, skills_c7_theorem 5 10 10 (by decide)⟩

/-- Claim C8: `summary.totalRepos` is the full input length, excluded records
included, while an excluded record contributes to no other aggregate: the
whole aggregation state (language counts, framework counts, pattern counts,
tool counts, totalCommits, commit-date span) is unchanged by inserting an
excluded record anywhere. -/
theorem skills_c8_theorem (rs₁ rs₂ : List AnalyzedRepo) (r : AnalyzedRepo) (now : Int)
    (h : r.excluded = true) :
    (buildSkillsProfile (rs₁ ++ r :: rs₂) now).summary.totalRepos
      = rs₁.length + 1 + rs₂.length ∧
    aggregateRepos (rs₁ ++ r :: rs₂) now = aggregateRepos (rs₁ ++ rs₂) now := by
  constructor
  · rw [buildSkillsProfile_totalRepos]
    simp [List.length_append]
    omega
  · exact aggregateRepos_insert_excluded rs₁ rs₂ r now h

/-- A live repo with one JavaScript language entry, for witnesses. -/
def repoLiveA : AnalyzedRepo :=
  { name := "a", languages := [{ name := "JavaScript", count := 2 }] }

/-- A live repo with one docker pattern, for witnesses. -/
def repoLiveB : AnalyzedRepo :=
  { name := "b", patterns := ["docker"] }

/-- An excluded repo, for witnesses. -/
def repoExcl : AnalyzedRepo :=
  { name := "x", excluded := true,
    languages := [{ name := "Python", count := 9 }], patterns := ["docker"] }

/-- Witness for C8: one excluded record inserted between two live ones. -/
theorem skills_c8_witness :
    repoExcl.excluded = true ∧
    ((buildSkillsProfile ([repoLiveA] ++ repoExcl :: [repoLiveB]) 0).summary.totalRepos
      = 1 + 1 + 1 ∧
    aggregateRepos ([repoLiveA] ++ repoExcl :: [repoLiveB]) 0
      = aggregateRepos ([repoLiveA] ++ [repoLiveB]) 0) :=
  ⟨by decide, skills_c8_theorem [repoLiveA] [repoLiveB] repoExcl 0 (by decide)⟩

/-- Claim C9: history extraction is total; a failed git invocation yields the
sentinel (`freshness = "unknown"`, `commitCount = 0`, an `error` field), and on
success the tag is `stale` for more than 90 days since the last commit,
`aging` for more than 30, `fresh` otherwise. -/
theorem analyzer_c9_theorem (nowMs : Int) (g : GitRaw) :
    ((analyzeGitHistory none nowMs).freshness = "unknown" ∧
     (analyzeGitHistory none nowMs).commitCount = 0 ∧
     (analyzeGitHistory none nowMs).error.isSome = true) ∧
    ((analyzeGitHistory (some g) nowMs).freshness = "stale" ↔
       Int.fdiv (nowMs - g.lastCommitTime) 86400000 > 90) ∧
    ((analyzeGitHistory (some g) nowMs).freshness = "aging" ↔
       (30 < Int.fdiv (nowMs - g.lastCommitTime) 86400000 ∧
        Int.fdiv (nowMs - g.lastCommitTime) 86400000 ≤ 90)) ∧
    ((analyzeGitHistory (some g) nowMs).freshness = "fresh" ↔
       Int.fdiv (nowMs - g.lastCommitTime) 86400000 ≤ 30) := by
  refine ⟨⟨rfl, rfl, rfl⟩, ?_, ?_, ?_⟩
  · exact freshnessOf_eq_stale_iff _
  · exact freshnessOf_eq_aging_iff _
  · exact freshnessOf_eq_fresh_iff _

/-- A concrete raw git record (last commit 40 days before the witness
instant), for the C9 witness. -/
def gitRawW : GitRaw :=
  { lastCommit := "2020-01-01", lastCommitTime := 5184000000, commitCount := 7 }

/-- Witness for C9 at a concrete instant and git record (40 days old). -/
theorem analyzer_c9_witness :
    ((analyzeGitHistory none 8640000000).freshness = "unknown" ∧
     (analyzeGitHistory none 8640000000).commitCount = 0 ∧
     (analyzeGitHistory none 8640000000).error.isSome = true) ∧
    ((analyzeGitHistory (some gitRawW) 8640000000).freshness = "stale" ↔
       Int.fdiv (8640000000 - gitRawW.lastCommitTime) 86400000 > 90) ∧
    ((analyzeGitHistory (some gitRawW) 8640000000).freshness = "aging" ↔
       (30 < Int.fdiv (8640000000 - gitRawW.lastCommitTime) 86400000 ∧
        Int.fdiv (8640000000 - gitRawW.lastCommitTime) 86400000 ≤ 90)) ∧
    ((analyzeGitHistory (some gitRawW) 8640000000).freshness = "fresh" ↔
       Int.fdiv (8640000000 - gitRawW.lastCommitTime) 86400000 ≤ 30) :=
  analyzer_c9_theorem 8640000000 gitRawW

/-- Claim C6: `want`/`qualified`/`stretch` are pairwise disjoint, and a result
is in `filtered` exactly when its location check failed or it has an avoided
skill. -/
theorem skills_c6_theorem (ml : List MatchResult) (m : MatchResult) :
    ¬(m ∈ (categorizeMatches ml).want ∧ m ∈ (categorizeMatches ml).qualified) ∧
    ¬(m ∈ (categorizeMatches ml).want ∧ m ∈ (categorizeMatches ml).stretch) ∧
    ¬(m ∈ (categorizeMatches ml).qualified ∧ m ∈ (categorizeMatches ml).stretch) ∧
    (m ∈ (categorizeMatches ml).filtered ↔
      (m ∈ ml ∧ (m.locationMatch = false ∨ m.hasAvoid = true))) := by
  unfold categorizeMatches
  simp only [List.mem_filter, Bool.and_eq_true, Bool.or_eq_true, Bool.not_eq_true',
    decide_eq_true_eq]
  refine ⟨?_, ?_, ?_, ?_⟩
  · rintro ⟨⟨-, ⟨⟨⟨hw, -⟩, -⟩, -⟩⟩, ⟨-, ⟨⟨⟨-, -⟩, hw'⟩, -⟩⟩⟩
    rw [hw] at hw'
    cases hw'
  · rintro ⟨⟨-, ⟨⟨⟨-, h1⟩, -⟩, -⟩⟩, ⟨-, ⟨⟨h2, h3⟩, -⟩⟩⟩
    omega
  · rintro ⟨⟨-, ⟨⟨⟨h1, -⟩, -⟩, -⟩⟩, ⟨-, ⟨⟨h2, h3⟩, -⟩⟩⟩
    omega
  · tauto

/-- A concrete match result for the C6 witness. -/
def mrW : MatchResult :=
  { job := { id := "j", title := "Dev", company := "Acme" }, score := 60, baseScore := 60,
    matchedSkills := [], missingSkills := [], bonusSkills := [],
    locationMatch := true, wantMatch := true, hasAvoid := false }

/-- Witness for C6 at a concrete one-element match list. -/
theorem skills_c6_witness :
    ¬(mrW ∈ (categorizeMatches [mrW]).want ∧ mrW ∈ (categorizeMatches [mrW]).qualified) ∧
    ¬(mrW ∈ (categorizeMatches [mrW]).want ∧ mrW ∈ (categorizeMatches [mrW]).stretch) ∧
    ¬(mrW ∈ (categorizeMatches [mrW]).qualified ∧ mrW ∈ (categorizeMatches [mrW]).stretch) ∧
    (mrW ∈ (categorizeMatches [mrW]).filtered ↔
      (mrW ∈ [mrW] ∧ (mrW.locationMatch = false ∨ mrW.hasAvoid = true))) :=
  skills_c6_theorem [mrW] mrW

/-- Claim C1 (amended): every match result's final score is clamped into
[0, 100] by exactly the `clamp(baseScore + wantScore - avoidPenalty, 0, 100)`
formula, and the base score is `round(100 * matchedCount / max(1, jobSkillsCount))`;
the base score itself is not bounded by 100 (see the counterexample). -/
theorem skills_c1_theorem (jobs : List JobRecord) (profile : SkillsProfile)
    (prefs : Preferences) :
    ∀ m ∈ matchJobsToProfile jobs profile prefs,
      0 ≤ m.score ∧ m.score ≤ 100 ∧
      m.score = max 0 (min 100 ((m.baseScore : Int)
        + (wantScoreOf prefs m.matchedSkills : Int) - (avoidPenaltyOf prefs m.job : Int))) ∧
      m.baseScore = jsRoundNat (m.matchedSkills.length * 100)
        (if m.job.skills.length = 0 then 1 else m.job.skills.length) := by
  intro m hm
  rw [matchJobsToProfile, mem_stableSortBy, List.mem_map] at hm
  obtain ⟨job, hjob, rfl⟩ := hm
  refine ⟨le_max_left _ _, ?_, rfl, ?_⟩
  · show max 0 (min 100 ((((matchSkillsToJob profile job).score : Int))
      + (wantScoreOf prefs (matchSkillsToJob profile job).matched : Int)
      - (avoidPenaltyOf prefs job : Int))) ≤ 100
    omega
  · show (matchSkillsToJob profile job).score = _
    show jsRoundNat ((matchSkillsToJob profile job).matched.length * 100)
      (if (job.skills.map lowerStr).length = 0 then 1 else (job.skills.map lowerStr).length) = _
    rw [List.length_map]
    exact rfl

/-- A profile with one language and one framework entry (the shape the matcher
reads), for C1's witness and counterexample. -/
def profileC1 : SkillsProfile :=
  { languages := [("JavaScript",
      { fileCount := 3, repoCount := 1, proficiency := "expert", level := "language",
        aliases := ["js", "node", "nodejs"] })],
    frameworks := [("React",
      { key := "react", category := "frontend", repoCount := 1, proficiency := "expert" })] }

/-- A job advertising one skill token while its description also mentions a
profile framework. -/
def jobC1 : JobRecord :=
  { id := "acme", title := "Dev", company := "Acme",
    skills := ["javascript"], description := "We want react experience" }

/-- Witness for C1's amended statement at a concrete job and profile. -/
theorem skills_c1_witness :
    matchJobRecord profileC1 { } jobC1 ∈ matchJobsToProfile [jobC1] profileC1 { } ∧
    (0 ≤ (matchJobRecord profileC1 { } jobC1).score ∧
     (matchJobRecord profileC1 { } jobC1).score ≤ 100 ∧
     (matchJobRecord profileC1 { } jobC1).score =
       max 0 (min 100 (((matchJobRecord profileC1 { } jobC1).baseScore : Int)
         + (wantScoreOf { } (matchJobRecord profileC1 { } jobC1).matchedSkills : Int)
         - (avoidPenaltyOf { } (matchJobRecord profileC1 { } jobC1).job : Int))) ∧
     (matchJobRecord profileC1 { } jobC1).baseScore =
       jsRoundNat ((matchJobRecord profileC1 { } jobC1).matchedSkills.length * 100)
         (if (matchJobRecord profileC1 { } jobC1).job.skills.length = 0 then 1
          else (matchJobRecord profileC1 { } jobC1).job.skills.length)) :=
  ⟨by decide, skills_c1_theorem [jobC1] profileC1 { } (matchJobRecord profileC1 { } jobC1)
    (by decide)⟩

/-- Counterexample to C1 as stated: a framework matched through the
description makes `matchedCount` exceed the job's single skill token, so the
base score is 200, outside [0, 100] (the final score is still clamped to 100). -/
theorem skills_c1_counterexample :
    (matchJobsToProfile [jobC1] profileC1 { }).map (fun m => m.baseScore) = [200] ∧
    ¬(200 ≤ 100) ∧
    (matchJobsToProfile [jobC1] profileC1 { }).map (fun m => m.score) = [100] := by
  refine ⟨by decide, by decide, by decide⟩

/-- The id assigned by `normalizeJob` (`job.id || generateJobId(job)`), which
depends only on the raw record. -/
def jobIdOf (rj : RawJob) : String :=
  match rj.id with
  | some i => if i = "" then generateJobId rj else i
  | none => generateJobId rj

theorem normalizeJob_id (rj : RawJob) (d i : String) :
    (normalizeJob rj d i).id = jobIdOf rj := rfl

theorem ingestStep_invalid (d i : String) (st : IngestState) (rj : RawJob)
    (h : (validateJob rj).valid = false) :
    ingestStep d i st rj =
      { st with errors := st.errors ++ [{ job := rj, errors := (validateJob rj).errors }] } := by
  simp [ingestStep, h]

theorem ingestStep_dup (d i : String) (st : IngestState) (rj : RawJob)
    (h : (validateJob rj).valid = true) (h2 : jobIdOf rj ∈ st.ids) :
    ingestStep d i st rj = { st with skipped := st.skipped + 1 } := by
  simp [ingestStep, h, normalizeJob_id, h2]

theorem ingestStep_new (d i : String) (st : IngestState) (rj : RawJob)
    (h : (validateJob rj).valid = true) (h2 : jobIdOf rj ∉ st.ids) :
    ingestStep d i st rj =
      { st with
          added := st.added + 1,
          jobs := st.jobs ++ [normalizeJob rj d i],
          ids := st.ids ++ [jobIdOf rj] } := by
  simp [ingestStep, h, normalizeJob_id, h2]

/-- Claim C3 (amended): validation accepts a record exactly when `title` and
`company` are truthy and a truthy `skills` value is an array — so a non-empty
comma-separated skills string is rejected and recorded under `errors`
(`normalizeSkills` would split such a string, but ingestion never reaches it);
an invalid record is collected under `errors` and not added. -/
theorem jobs_c3_theorem (rj : RawJob) :
    ((validateJob rj).valid =
      (truthyOptStr rj.title && truthyOptStr rj.company &&
        !(skillsTruthy rj.skills && !skillsIsArray rj.skills))) ∧
    ("Skills must be an array" ∈ (validateJob rj).errors ↔
      (skillsTruthy rj.skills && !skillsIsArray rj.skills) = true) ∧
    (∀ (existing : List JobRecord) (d i : String), (validateJob rj).valid = false →
      ingestJobs [rj] existing d i =
        { added := 0, skipped := 0,
          errors := [{ job := rj, errors := (validateJob rj).errors }],
          jobs := existing, ids := existing.map (fun j => j.id) }) := by
  refine ⟨?_, ?_, ?_⟩
  · cases ht : truthyOptStr rj.title <;>
      cases hc : truthyOptStr rj.company <;>
        cases hs : (skillsTruthy rj.skills && !skillsIsArray rj.skills) <;>
          simp [validateJob, ht, hc, hs]
  · cases ht : truthyOptStr rj.title <;>
      cases hc : truthyOptStr rj.company <;>
        cases hs : (skillsTruthy rj.skills && !skillsIsArray rj.skills) <;>
          simp [validateJob, ht, hc, hs]
  · intro existing d i hinvalid
    unfold ingestJobs
    rw [List.foldl_cons, List.foldl_nil, ingestStep_invalid d i _ rj hinvalid]
    rfl

/-- A raw entry with a comma-separated skills string, for C3. -/
def rawStrSkills : RawJob :=
  { title := some "Dev", company := some "Acme",
    skills := some (SkillsField.str "react,python") }

/-- Witness for C3 at the comma-separated-skills record. -/
theorem jobs_c3_witness :
    ((validateJob rawStrSkills).valid =
      (truthyOptStr rawStrSkills.title && truthyOptStr rawStrSkills.company &&
        !(skillsTruthy rawStrSkills.skills && !skillsIsArray rawStrSkills.skills))) ∧
    ("Skills must be an array" ∈ (validateJob rawStrSkills).errors ↔
      (skillsTruthy rawStrSkills.skills && !skillsIsArray rawStrSkills.skills) = true) ∧
    (∀ (existing : List JobRecord) (d i : String), (validateJob rawStrSkills).valid = false →
      ingestJobs [rawStrSkills] existing d i =
        { added := 0, skipped := 0,
          errors := [{ job := rawStrSkills, errors := (validateJob rawStrSkills).errors }],
          jobs := existing, ids := existing.map (fun j => j.id) }) :=
  jobs_c3_theorem rawStrSkills

/-- Counterexample to C3 as stated: the comma-separated skills string is not
accepted — validation fails, the entry lands under `errors` and nothing is
added — even though `normalizeSkills` would split it. -/
theorem jobs_c3_counterexample :
    (validateJob rawStrSkills).valid = false ∧
    (validateJob rawStrSkills).errors = ["Skills must be an array"] ∧
    (ingestJobs [rawStrSkills] [] "2026-01-01" "2026-01-01T00:00:00.000Z").added = 0 ∧
    (ingestJobs [rawStrSkills] [] "2026-01-01" "2026-01-01T00:00:00.000Z").errors.length = 1 ∧
    normalizeSkills (SkillsField.str "react,python") = ["react", "python"] := by
  refine ⟨by decide, by decide, by decide, by decide, by decide⟩

/-- The slug half of a generated id. -/
def slugBase (j : RawJob) : String :=
  String.mk ((slugReplace false
    (lowerStr ((j.company.getD "undefined") ++ "-" ++ (j.title.getD "undefined"))).data).take 40)

/-- The 6-hex-digit hash fragment of a generated id. -/
def hashFragment (j : RawJob) : String :=
  String.mk ((Nat.toDigits 16 (simpleHash (jsonStringifyRawJob j))).take 6)

theorem generateJobId_eq (j : RawJob) :
    generateJobId j = slugBase j ++ "-" ++ hashFragment j := rfl

theorem strData_append (a b : String) : (a ++ b).data = a.data ++ b.data := by
  cases a
  cases b
  rfl

theorem strAppend_cancel_left {a b c : String} (h : a ++ b = a ++ c) : b = c := by
  have hd := congrArg String.data h
  rw [strData_append, strData_append] at hd
  exact congrArg String.mk (List.append_cancel_left hd)

/-- Claim C5 (amended): the id is deterministic in the raw record; for two
records with the same company and title the ids coincide exactly when their
6-hex-digit serialized-form hashes coincide — so structurally different
records can collide (see the counterexample). -/
theorem jobs_c5_theorem (j₁ j₂ : RawJob) (hc : j₁.company = j₂.company)
    (ht : j₁.title = j₂.title) :
    generateJobId j₁ = generateJobId j₂ ↔ hashFragment j₁ = hashFragment j₂ := by
  have hbase : slugBase j₁ = slugBase j₂ := by
    unfold slugBase
    rw [hc, ht]
  rw [generateJobId_eq, generateJobId_eq, hbase]
  constructor
  · intro h
    rw [String.append_assoc, String.append_assoc] at h
    exact strAppend_cancel_left (strAppend_cancel_left h)
  · intro h
    rw [h]

/-- Two structurally different postings for the same company and title whose
serialized forms collide under `simpleHash` (the two-character blocks `Aa` and
`BB` have equal 31-weighted sums). -/
def rawAa : RawJob := { title := some "t", company := some "c", description := some "Aa" }

/-- See `rawAa`. -/
def rawBB : RawJob := { title := some "t", company := some "c", description := some "BB" }

/-- Witness for C5's amended statement at the colliding pair. -/
theorem jobs_c5_witness :
    rawAa.company = rawBB.company ∧ rawAa.title = rawBB.title ∧
    (generateJobId rawAa = generateJobId rawBB ↔ hashFragment rawAa = hashFragment rawBB) :=
  ⟨rfl, rfl, jobs_c5_theorem rawAa rawBB rfl rfl⟩

/-- Counterexample to C5 as stated: two structurally different raw postings
with the same company and title whose generated ids are equal. -/
theorem jobs_c5_counterexample :
    rawAa ≠ rawBB ∧ rawAa.company = rawBB.company ∧ rawAa.title = rawBB.title ∧
    generateJobId rawAa = generateJobId rawBB := by
  refine ⟨by decide, by decide, by decide, by decide⟩

/-! ## Ingestion: bulk behavior -/

theorem ingest_foldl_all_new (d i : String) :
    ∀ (raws : List RawJob) (st : IngestState),
      (∀ rj ∈ raws, (validateJob rj).valid = true) →
      (raws.map jobIdOf).Nodup →
      (∀ rj ∈ raws, jobIdOf rj ∉ st.ids) →
      raws.foldl (ingestStep d i) st =
        { added := st.added + raws.length, skipped := st.skipped, errors := st.errors,
          jobs := st.jobs ++ raws.map (fun rj => normalizeJob rj d i),
          ids := st.ids ++ raws.map jobIdOf } := by
  intro raws
  induction raws with
  | nil =>
    intro st _ _ _
    simp
  | cons rj rest ih =>
    intro st hv hnd hni
    rw [List.foldl_cons]
    rw [ingestStep_new d i st rj (hv rj (by simp)) (hni rj (by simp))]
    rw [List.map_cons, List.nodup_cons] at hnd
    rw [ih _ (fun r hr => hv r (by simp [hr])) hnd.2 (fun r hr => ?_)]
    · simp only [List.map_cons]
      rw [List.append_assoc, List.append_assoc]
      simp [List.singleton_append]
      omega
    · simp only [List.mem_append, List.mem_singleton]
      rintro (hmem | heq)
      · exact hni r (by simp [hr]) hmem
      · exact hnd.1 (heq ▸ List.mem_map_of_mem jobIdOf hr)

theorem ingest_foldl_all_dup (d i : String) :
    ∀ (raws : List RawJob) (st : IngestState),
      (∀ rj ∈ raws, (validateJob rj).valid = true) →
      (∀ rj ∈ raws, jobIdOf rj ∈ st.ids) →
      raws.foldl (ingestStep d i) st = { st with skipped := st.skipped + raws.length } := by
  intro raws
  induction raws with
  | nil =>
    intro st _ _
    simp
  | cons rj rest ih =>
    intro st hv hin
    rw [List.foldl_cons]
    rw [ingestStep_dup d i st rj (hv rj (by simp)) (hin rj (by simp))]
    rw [ih { st with skipped := st.skipped + 1 } (fun r hr => hv r (by simp [hr]))
      (fun r hr => hin r (by simp [hr]))]
    simp
    omega

theorem ingest_foldl_nodup_ids (d i : String) :
    ∀ (raws : List RawJob) (st : IngestState),
      st.ids = st.jobs.map (fun j => j.id) → st.ids.Nodup →
      (raws.foldl (ingestStep d i) st).ids
          = (raws.foldl (ingestStep d i) st).jobs.map (fun j => j.id) ∧
        (raws.foldl (ingestStep d i) st).ids.Nodup := by
  intro raws
  induction raws with
  | nil =>
    intro st h1 h2
    exact ⟨h1, h2⟩
  | cons rj rest ih =>
    intro st h1 h2
    rw [List.foldl_cons]
    by_cases hv : (validateJob rj).valid = true
    · by_cases hm : jobIdOf rj ∈ st.ids
      · rw [ingestStep_dup d i st rj hv hm]
        exact ih _ h1 h2
      · rw [ingestStep_new d i st rj hv hm]
        refine ih _ ?_ ?_
        · simp [h1, normalizeJob_id]
        · simp only []
          rw [List.nodup_append]
          exact ⟨h2, List.nodup_singleton _, by simpa using hm⟩
    · rw [ingestStep_invalid d i st rj (Bool.not_eq_true _ ▸ hv)]
      exact ih _ h1 h2

/-- Claim C2 (amended): for a payload of valid records whose normalized ids
are pairwise distinct, the first ingestion into an empty collection adds all
of them (`added = N, skipped = 0`), re-ingesting the byte-identical payload
skips all of them (`added = 0, skipped = N`) and leaves the persisted
collection unchanged, and the persisted ids are duplicate-free; moreover any
ingestion into a collection with duplicate-free ids keeps the ids
duplicate-free. -/
theorem jobs_c2_theorem (raws : List RawJob) (d₁ i₁ d₂ i₂ : String)
    (hv : ∀ rj ∈ raws, (validateJob rj).valid = true)
    (hnd : (raws.map jobIdOf).Nodup) :
    ingestJobs raws [] d₁ i₁ =
      { added := raws.length, skipped := 0, errors := [],
        jobs := raws.map (fun rj => normalizeJob rj d₁ i₁), ids := raws.map jobIdOf } ∧
    ingestJobs raws (raws.map (fun rj => normalizeJob rj d₁ i₁)) d₂ i₂ =
      { added := 0, skipped := raws.length, errors := [],
        jobs := raws.map (fun rj => normalizeJob rj d₁ i₁), ids := raws.map jobIdOf } ∧
    ((raws.map (fun rj => normalizeJob rj d₁ i₁)).map (fun j => j.id)).Nodup ∧
    (∀ (existing : List JobRecord) (d i : String),
      (existing.map (fun j => j.id)).Nodup →
      ((ingestJobs raws existing d i).jobs.map (fun j => j.id)).Nodup) := by
  have hids : (raws.map (fun rj => normalizeJob rj d₁ i₁)).map (fun j => j.id)
      = raws.map jobIdOf := by
    rw [List.map_map]
    rfl
  refine ⟨?_, ?_, ?_, ?_⟩
  · unfold ingestJobs
    rw [ingest_foldl_all_new d₁ i₁ raws _ hv hnd (by simp)]
    simp
  · unfold ingestJobs
    rw [show (raws.map (fun rj => normalizeJob rj d₁ i₁)).map (fun j => j.id)
        = raws.map jobIdOf from hids]
    rw [ingest_foldl_all_dup d₂ i₂ raws _ hv
      (fun rj hr => by simpa using List.mem_map_of_mem jobIdOf hr)]
    simp
  · rw [hids]
    exact hnd
  · intro existing d i hex
    unfold ingestJobs
    have hpair := ingest_foldl_nodup_ids d i raws
      { jobs := existing, ids := existing.map (fun j => j.id) } rfl hex
    rw [← hpair.1]
    exact hpair.2

/-- A valid raw posting for Acme, for the C2 witness. -/
def rawAcme : RawJob :=
  { title := some "Dev", company := some "Acme",
    skills := some (SkillsField.arr ["react", "python"]) }

/-- A valid raw posting for Globex, for the C2 witness. -/
def rawGlobex : RawJob :=
  { title := some "Eng", company := some "Globex", location := some "Remote" }

/-- Witness for C2's amended statement at a concrete two-element payload. -/
theorem jobs_c2_witness :
    (∀ rj ∈ [rawAcme, rawGlobex], (validateJob rj).valid = true) ∧
    ([rawAcme, rawGlobex].map jobIdOf).Nodup ∧
    (ingestJobs [rawAcme, rawGlobex] [] "2026-01-01" "2026-01-01T00:00:00.000Z" =
      { added := 2, skipped := 0, errors := [],
        jobs := [rawAcme, rawGlobex].map
          (fun rj => normalizeJob rj "2026-01-01" "2026-01-01T00:00:00.000Z"),
        ids := [rawAcme, rawGlobex].map jobIdOf } ∧
    ingestJobs [rawAcme, rawGlobex]
        ([rawAcme, rawGlobex].map
          (fun rj => normalizeJob rj "2026-01-01" "2026-01-01T00:00:00.000Z"))
        "2026-02-02" "2026-02-02T09:00:00.000Z" =
      { added := 0, skipped := 2, errors := [],
        jobs := [rawAcme, rawGlobex].map
          (fun rj => normalizeJob rj "2026-01-01" "2026-01-01T00:00:00.000Z"),
        ids := [rawAcme, rawGlobex].map jobIdOf } ∧
    (([rawAcme, rawGlobex].map
        (fun rj => normalizeJob rj "2026-01-01" "2026-01-01T00:00:00.000Z")).map
      (fun j => j.id)).Nodup ∧
    (∀ (existing : List JobRecord) (d i : String),
      (existing.map (fun j => j.id)).Nodup →
      ((ingestJobs [rawAcme, rawGlobex] existing d i).jobs.map (fun j => j.id)).Nodup)) :=
  ⟨by decide, by decide,
    by
      have h := jobs_c2_theorem [rawAcme, rawGlobex]
        "2026-01-01" "2026-01-01T00:00:00.000Z" "2026-02-02" "2026-02-02T09:00:00.000Z"
        (by decide) (by decide)
      simpa using h⟩

/-- The colliding pair for C2: distinct company+title pairs (`x!_y` vs
`x#!y`) that slugify identically and whose serialized forms hash identically,
hence the same generated id. -/
def rawCollideA : RawJob := { title := some "t", company := some "x!_y" }

/-- See `rawCollideA`. -/
def rawCollideB : RawJob := { title := some "t", company := some "x#!y" }

/-- Counterexample to C2 as stated: a valid 2-element payload with distinct
company+title pairs for which the first ingestion into an empty collection
reports `added = 1, skipped = 1`, not `added = 2, skipped = 0`, because both
records normalize to the same id. -/
theorem jobs_c2_counterexample :
    (validateJob rawCollideA).valid = true ∧
    (validateJob rawCollideB).valid = true ∧
    ¬(rawCollideA.company = rawCollideB.company ∧ rawCollideA.title = rawCollideB.title) ∧
    (ingestJobs [rawCollideA, rawCollideB] [] "2026-01-01" "2026-01-01T00:00:00.000Z").added
      = 1 ∧
    (ingestJobs [rawCollideA, rawCollideB] [] "2026-01-01" "2026-01-01T00:00:00.000Z").skipped
      = 1 := by
  refine ⟨by decide, by decide, by decide, by decide, by decide⟩

/-! ## Permutation-stable views of the profile maps -/

theorem mem_patternKeys_perm {rs rs' : List AnalyzedRepo} (h : rs.Perm rs') (p : String) :
    p ∈ (patternCountsOf rs).map Prod.fst ↔ p ∈ (patternCountsOf rs').map Prod.fst := by
  have e := alookup_patternCountsOf_perm h p
  constructor
  · intro hp
    rcases (alookup_isSome_iff (patternCountsOf rs) p).mpr hp with ⟨v, hv⟩
    exact (alookup_isSome_iff _ p).mp ⟨v, by rw [← e]; exact hv⟩
  · intro hp
    rcases (alookup_isSome_iff (patternCountsOf rs') p).mpr hp with ⟨v, hv⟩
    exact (alookup_isSome_iff _ p).mp ⟨v, by rw [e]; exact hv⟩

theorem mem_frameworkCountsOf_perm {rs rs' : List AnalyzedRepo} (h : rs.Perm rs')
    (kd : String × FrameworkCount) :
    kd ∈ frameworkCountsOf rs ↔ kd ∈ frameworkCountsOf rs' := by
  obtain ⟨k, v⟩ := kd
  rw [mem_iff_alookup_eq_some k v (nodup_keys_frameworkCountsOf rs),
    mem_iff_alookup_eq_some k v (nodup_keys_frameworkCountsOf rs'),
    alookup_frameworkCountsOf_perm h k]

theorem mem_domains_iff (rs : List AnalyzedRepo) (now : Int) (d : String) :
    d ∈ (buildSkillsProfile rs now).domains ↔
      ((∃ p, p ∈ (patternCountsOf rs).map Prod.fst ∧ alookup patternToDomain p = some d) ∨
       (∃ kd, kd ∈ frameworkCountsOf rs ∧ alookup frameworkToDomain kd.2.category = some d)) := by
  rw [buildSkillsProfile_domains]
  unfold deriveDomains
  rw [show ((frameworkCountsOf rs).map
        (fun kd => (kd.2.name, mkFrameworkEntry kd.1 kd.2 rs.length))).map
          (fun fw => fw.2.category)
      = (frameworkCountsOf rs).map (fun kd => kd.2.category) from by
        rw [List.map_map]
        rfl]
  rw [mem_addMappedDomains, mem_addMappedDomains]
  simp only [List.not_mem_nil, false_or]
  constructor
  · rintro (⟨p, hp, hd⟩ | ⟨c, hc, hd⟩)
    · exact Or.inl ⟨p, hp, hd⟩
    · rcases List.mem_map.mp hc with ⟨kd, hkd, rfl⟩
      exact Or.inr ⟨kd, hkd, hd⟩
  · rintro (⟨p, hp, hd⟩ | ⟨kd, hkd, hd⟩)
    · exact Or.inl ⟨p, hp, hd⟩
    · exact Or.inr ⟨kd.2.category, List.mem_map_of_mem _ hkd, hd⟩

/-- Claim C4 (amended): a permutation of the analyzed repos yields the same
key-value bindings of `languages` (as lookups) and the same sets of
`frameworks` entries and `domains` labels — though not byte-identical maps:
key order and count-tie order follow first-occurrence order of the input
(see the counterexample). -/
theorem skills_c4_theorem (rs rs' : List AnalyzedRepo) (now : Int) (h : rs.Perm rs') :
    (∀ q, alookup (buildSkillsProfile rs now).languages q
        = alookup (buildSkillsProfile rs' now).languages q) ∧
    (∀ x : String × FrameworkEntry,
      x ∈ (buildSkillsProfile rs now).frameworks
        ↔ x ∈ (buildSkillsProfile rs' now).frameworks) ∧
    (∀ d, d ∈ (buildSkillsProfile rs now).domains
        ↔ d ∈ (buildSkillsProfile rs' now).domains) := by
  refine ⟨?_, ?_, ?_⟩
  · intro q
    rw [buildSkillsProfile_languages, buildSkillsProfile_languages]
    refine (alookup_map_entry (fun k v => mkLanguageEntry k v rs.length)
        (languageCountsOf rs) q).trans
      (Eq.trans ?_ (alookup_map_entry (fun k v => mkLanguageEntry k v rs'.length)
        (languageCountsOf rs') q).symm)
    rw [alookup_languageCountsOf_perm h q, h.length_eq]
  · intro x
    rw [buildSkillsProfile_frameworks, buildSkillsProfile_frameworks]
    simp only [List.mem_map]
    constructor
    · rintro ⟨kd, hkd, rfl⟩
      exact ⟨kd, (mem_frameworkCountsOf_perm h kd).mp hkd, by rw [h.length_eq]⟩
    · rintro ⟨kd, hkd, rfl⟩
      exact ⟨kd, (mem_frameworkCountsOf_perm h kd).mpr hkd, by rw [h.length_eq]⟩
  · intro d
    rw [mem_domains_iff, mem_domains_iff]
    constructor
    · rintro (⟨p, hp, hd⟩ | ⟨kd, hkd, hd⟩)
      · exact Or.inl ⟨p, (mem_patternKeys_perm h p).mp hp, hd⟩
      · exact Or.inr ⟨kd, (mem_frameworkCountsOf_perm h kd).mp hkd, hd⟩
    · rintro (⟨p, hp, hd⟩ | ⟨kd, hkd, hd⟩)
      · exact Or.inl ⟨p, (mem_patternKeys_perm h p).mpr hp, hd⟩
      · exact Or.inr ⟨kd, (mem_frameworkCountsOf_perm h kd).mpr hkd, hd⟩

/-- A repo whose only language is `A`, for C4's counterexample/witness. -/
def repoLangA : AnalyzedRepo :=
  { name := "ra", languages := [{ name := "A", count := 1 }], patterns := ["react"] }

/-- A repo whose only language is `B`, for C4's counterexample/witness. -/
def repoLangB : AnalyzedRepo :=
  { name := "rb", languages := [{ name := "B", count := 2 }], patterns := ["docker"] }

/-- Witness for C4's amended statement at a concrete swap. -/
theorem skills_c4_witness :
    List.Perm [repoLangA, repoLangB] [repoLangB, repoLangA] ∧
    ((∀ q, alookup (buildSkillsProfile [repoLangA, repoLangB] 0).languages q
        = alookup (buildSkillsProfile [repoLangB, repoLangA] 0).languages q) ∧
    (∀ x : String × FrameworkEntry,
      x ∈ (buildSkillsProfile [repoLangA, repoLangB] 0).frameworks
        ↔ x ∈ (buildSkillsProfile [repoLangB, repoLangA] 0).frameworks) ∧
    (∀ d, d ∈ (buildSkillsProfile [repoLangA, repoLangB] 0).domains
        ↔ d ∈ (buildSkillsProfile [repoLangB, repoLangA] 0).domains)) :=
  ⟨by decide, skills_c4_theorem [repoLangA, repoLangB] [repoLangB, repoLangA] 0 (by decide)⟩

/-- Counterexample to C4 as stated: swapping two repos permutes the input but
changes the key order of the `languages` map and the order of
`topLanguages`, so the outputs are not byte-identical. -/
theorem skills_c4_counterexample :
    List.Perm [repoLangA, repoLangB] [repoLangB, repoLangA] ∧
    (buildSkillsProfile [repoLangA, repoLangB] 0).languages
      ≠ (buildSkillsProfile [repoLangB, repoLangA] 0).languages ∧
    (buildSkillsProfile [repoLangA, repoLangB] 0).summary.topLanguages.map (fun tl => tl.name)
      ≠ (buildSkillsProfile [repoLangB, repoLangA] 0).summary.topLanguages.map
          (fun tl => tl.name) := by
  refine ⟨by decide, by decide, by decide⟩

/-- Claim C10: every language/framework proficiency is computed with the full
input length (excluded records included) as denominator, and appending an
excluded record (which only grows that denominator) never raises any entry's
tier. -/
theorem skills_c10_theorem (rs : List AnalyzedRepo) (r : AnalyzedRepo) (now now' : Int)
    (h : r.excluded = true) :
    (∀ p ∈ (buildSkillsProfile rs now).languages,
      p.2.proficiency = calculateProficiency p.2.repoCount rs.length) ∧
    (∀ p ∈ (buildSkillsProfile rs now).frameworks,
      ∃ info, alookup FRAMEWORK_CATEGORIES p.2.key = some info ∧
        p.2.proficiency = calculateProficiency p.2.repoCount rs.length info.weight10) ∧
    List.Forall₂
      (fun (p p' : String × LanguageEntry) =>
        p.1 = p'.1 ∧ p.2.repoCount = p'.2.repoCount ∧
        tierRank p'.2.proficiency ≤ tierRank p.2.proficiency)
      (buildSkillsProfile rs now).languages
      (buildSkillsProfile (rs ++ [r]) now').languages ∧
    List.Forall₂
      (fun (p p' : String × FrameworkEntry) =>
        p.1 = p'.1 ∧ p.2.repoCount = p'.2.repoCount ∧
        tierRank p'.2.proficiency ≤ tierRank p.2.proficiency)
      (buildSkillsProfile rs now).frameworks
      (buildSkillsProfile (rs ++ [r]) now').frameworks := by
  have hlen : rs.length ≤ (rs ++ [r]).length := by simp
  refine ⟨?_, ?_, ?_, ?_⟩
  · rw [buildSkillsProfile_languages]
    intro p hp
    rcases List.mem_map.mp hp with ⟨nd, hnd, rfl⟩
    rfl
  · rw [buildSkillsProfile_frameworks]
    intro p hp
    rcases List.mem_map.mp hp with ⟨kd, hkd, rfl⟩
    exact ⟨{ category := kd.2.category, name := kd.2.name, weight10 := kd.2.weight10 },
      frameworkCountsOf_entry_table rs kd hkd, rfl⟩
  · rw [buildSkillsProfile_languages, buildSkillsProfile_languages,
      languageCountsOf_append_excluded rs r h]
    rw [List.forall₂_map_left_iff, List.forall₂_map_right_iff, List.forall₂_same]
    intro nd hnd
    exact ⟨rfl, rfl, tierRank_anti_totalRepos nd.2.repos rs.length (rs ++ [r]).length 10 hlen⟩
  · rw [buildSkillsProfile_frameworks, buildSkillsProfile_frameworks,
      frameworkCountsOf_append_excluded rs r h]
    rw [List.forall₂_map_left_iff, List.forall₂_map_right_iff, List.forall₂_same]
    intro kd hkd
    exact ⟨rfl, rfl,
      tierRank_anti_totalRepos kd.2.repos rs.length (rs ++ [r]).length kd.2.weight10 hlen⟩

/-- Witness for C10: appending an excluded record to a two-repo input (where
JavaScript sits exactly at the 0.5 boundary) lowers the denominator ratio. -/
theorem skills_c10_witness :
    repoExcl.excluded = true ∧
    ((∀ p ∈ (buildSkillsProfile [repoLiveA, repoLiveB] 7).languages,
      p.2.proficiency = calculateProficiency p.2.repoCount [repoLiveA, repoLiveB].length) ∧
    (∀ p ∈ (buildSkillsProfile [repoLiveA, repoLiveB] 7).frameworks,
      ∃ info, alookup FRAMEWORK_CATEGORIES p.2.key = some info ∧
        p.2.proficiency
          = calculateProficiency p.2.repoCount [repoLiveA, repoLiveB].length info.weight10) ∧
    List.Forall₂
      (fun (p p' : String × LanguageEntry) =>
        p.1 = p'.1 ∧ p.2.repoCount = p'.2.repoCount ∧
        tierRank p'.2.proficiency ≤ tierRank p.2.proficiency)
      (buildSkillsProfile [repoLiveA, repoLiveB] 7).languages
      (buildSkillsProfile ([repoLiveA, repoLiveB] ++ [repoExcl]) 9).languages ∧
    List.Forall₂
      (fun (p p' : String × FrameworkEntry) =>
        p.1 = p'.1 ∧ p.2.repoCount = p'.2.repoCount ∧
        tierRank p'.2.proficiency ≤ tierRank p.2.proficiency)
      (buildSkillsProfile [repoLiveA, repoLiveB] 7).frameworks
      (buildSkillsProfile ([repoLiveA, repoLiveB] ++ [repoExcl]) 9).frameworks) :=
  ⟨by decide, skills_c10_theorem [repoLiveA, repoLiveB] repoExcl 7 9 (by decide)⟩
